import Mathlib

/-!
# FerroX: parameter namespace, singleton lifecycle and warning pass-through

A shallow embedding of `Source/FerroX.cpp`.

* `amrex::Real` values are rationals: the file stores and copies them and never
  computes with them, and a literal such as `1.e-6` is the number it is written as.
* `AMREX_SPACEDIM` is the parameter `D`.
* The inputs file is the `ParmParse` table: the list of its definitions in file order.
-/

namespace FerroX

/-! ## The inputs table (`amrex::ParmParse`) -/

/-- A value token of the inputs file, given by what its readers make of it (`none`: the
token does not read as that type): `asInt` and `asReal` for the library's typed readers
`is(valname, int&)` and `is(valname, Real&)`, `asParsed` for the expression parser of
`queryWithParser` with an `int` target. -/
structure Tok where
  asInt : Option Int
  asReal : Option ℚ
  asParsed : Option Int
deriving DecidableEq, Repr

/-- The table of definitions `name = v0 v1 ...` in file order. -/
abbrev Table := List (String × List Tok)

/-- Ways in which a call ends other than by returning. `notFound` and `badValue` are the
two `amrex::Abort` exits of `ParmParse`; `outOfRange` marks an unchecked `temp[i]` with `i`
outside the vector; `nullPointer` marks a member access through a null pointer or through
a reference to an object that is not alive. -/
inductive Err where
  | notFound (name : String)
  | badValue (name : String)
  | outOfRange
  | nullPointer
deriving DecidableEq, Repr

/-- Modelled from the spec: `ppindex` of the AMReX library (not under src/) finds
the last definition of `name` in the table, if there is one. -/
def ppindex (pp : Table) (name : String) : Option (List Tok) :=
  (pp.reverse.find? (fun e => e.1 == name)).map (fun e => e.2)

/-- Modelled from the spec: `pp.query(name, ref)` of the AMReX library (not under
src/), the "use default if absent" read. An absent `name` leaves `ref` as it is;
a present one stores value number 0 of its last definition, and aborts when that
value is missing or does not read as the requested type. -/
def query {α : Type} (read : Tok → Option α) (pp : Table) (name : String) (ref : α) :
    Except Err α :=
  match ppindex pp name with
  | none => .ok ref
  | some vals =>
    match vals.head? with
    | none => .error (.badValue name)
    | some t =>
      match read t with
      | none => .error (.badValue name)
      | some v => .ok v

/-- Modelled from the spec: `pp.get(name, ref)` of the AMReX library (not under
src/), the "must exist" read: as `query`, and an absent `name` aborts. -/
def get {α : Type} (read : Tok → Option α) (pp : Table) (name : String) : Except Err α :=
  match ppindex pp name with
  | none => .error (.notFound name)
  | some vals =>
    match vals.head? with
    | none => .error (.badValue name)
    | some t =>
      match read t with
      | none => .error (.badValue name)
      | some v => .ok v

/-- The loop of `queryarr` that reads value number `n`, `n+1`, ... into `ref[n]`,
`ref[n+1]`, ..., aborting at the first value that does not read as the type. -/
def readInto {α : Type} (read : Tok → Option α) (name : String) :
    List Tok → Nat → List α → Except Err (List α)
  | [], _, ref => .ok ref
  | t :: ts, n, ref =>
    match read t with
    | none => .error (.badValue name)
    | some v => readInto read name ts (n + 1) (ref.set n v)

/-- Modelled from the spec: `pp.queryarr(name, ref)` of the AMReX library (not
under src/) reads the entry `name` as a variable-length sequence: all values of the
last definition of `name`. An absent `name` returns `false` and leaves `ref` alone.
Otherwise, as in the library, `ref` is grown (never shrunk) with value-initialised
elements to hold all the values, the values overwrite `ref[0]`, `ref[1]`, ..., a value
that does not read as the type aborts, and `true` is returned. -/
def queryarr {α : Type} (read : Tok → Option α) (zero : α) (pp : Table) (name : String)
    (ref : List α) : Except Err (Bool × List α) :=
  match ppindex pp name with
  | none => .ok (false, ref)
  | some vals =>
    if vals.length = 0 then .ok (true, ref)
    else
      let ref := if ref.length ≤ vals.length - 1
        then ref ++ List.replicate (vals.length - ref.length) zero else ref
      match readInto read name vals 0 ref with
      | .error e => .error e
      | .ok ref => .ok (true, ref)

/-! ## The global namespace -/

/-- The fixed-size array `amrex::GpuArray<T, D>`. -/
structure GpuArray (α : Type) (D : Nat) where
  data : List α
  size_eq : data.length = D

instance {α : Type} [DecidableEq α] {D : Nat} : DecidableEq (GpuArray α D) :=
  fun a b => decidable_of_iff (a.data = b.data) (by
    cases a; cases b; simp)

/-- The assignment `a[i] = v`. -/
def GpuArray.set {α : Type} {D : Nat} (a : GpuArray α D) (i : Nat) (v : α) : GpuArray α D :=
  ⟨a.data.set i v, by simp [a.size_eq]⟩

/-- The copy loop `for (int i=0; i<AMREX_SPACEDIM; ++i) dst[i] = temp[i];`, run from
index `i` for `k` more rounds. The read `temp[i]` is unchecked in the source; here a
read outside the vector ends the run with `Err.outOfRange`. -/
def copyFrom {α : Type} {D : Nat} (temp : List α) :
    Nat → Nat → GpuArray α D → Except Err (GpuArray α D)
  | 0, _, dst => .ok dst
  | k + 1, i, dst =>
    match temp[i]? with
    | none => .error .outOfRange
    | some v => copyFrom temp k (i + 1) (dst.set i v)

/-- The whole copy loop, `i = 0, ..., D-1`. -/
def copyLoop {α : Type} {D : Nat} (temp : List α) (dst : GpuArray α D) :
    Except Err (GpuArray α D) :=
  copyFrom temp D 0 dst

/-- The process-wide namespace `FerroX::` of `Source/FerroX.cpp`, lines 161-214
(`inc_step_sign_change` is declared in the header). -/
structure Namespace (D : Nat) where
  nsteps : Int
  plot_int : Int
  dt : ℚ
  DE_lo : GpuArray ℚ D
  FE_lo : GpuArray ℚ D
  SC_lo : GpuArray ℚ D
  DE_hi : GpuArray ℚ D
  FE_hi : GpuArray ℚ D
  SC_hi : GpuArray ℚ D
  epsilon_0 : ℚ
  epsilonX_fe : ℚ
  epsilonZ_fe : ℚ
  epsilon_de : ℚ
  epsilon_si : ℚ
  alpha : ℚ
  beta : ℚ
  gamma : ℚ
  BigGamma : ℚ
  g11 : ℚ
  g44 : ℚ
  g44_p : ℚ
  g12 : ℚ
  alpha_12 : ℚ
  alpha_112 : ℚ
  alpha_123 : ℚ
  Nc : ℚ
  Nv : ℚ
  Ec : ℚ
  Ev : ℚ
  q : ℚ
  kb : ℚ
  T : ℚ
  lambda : ℚ
  P_BC_flag_lo : GpuArray Int D
  P_BC_flag_hi : GpuArray Int D
  prob_type : Int
  mlmg_verbosity : Int
  TimeIntegratorOrder : Int
  delta : ℚ
  inc_step_sign_change : Int
deriving DecidableEq

/-! ## Parameter ingestion -/

/-- The body `for (...) dst[i] = temp[i];` guarded by `if (pp.queryarr(...))`. -/
def copyIf {α : Type} {D : Nat} (found : Bool) (temp : List α) (dst : GpuArray α D) :
    Except Err (GpuArray α D) :=
  if found then copyLoop temp dst else .ok dst

/-- Lines 225-236: the polarization boundary flags, read through the shared
buffer `temp_int`. -/
def readBoundaryFlags (D : Nat) (pp : Table) (ns : Namespace D) : Except Err (Namespace D) := do
  let temp_int : List Int := List.replicate D 0
  let (found, temp_int) ← queryarr Tok.asInt 0 pp "P_BC_flag_lo" temp_int
  let ns := { ns with P_BC_flag_lo := ← copyIf found temp_int ns.P_BC_flag_lo }
  let (found, temp_int) ← queryarr Tok.asInt 0 pp "P_BC_flag_hi" temp_int
  let ns := { ns with P_BC_flag_hi := ← copyIf found temp_int ns.P_BC_flag_hi }
  return ns

/-- Lines 238-246: sign-change step, integrator order, problem type, solver verbosity. -/
def readControl {D : Nat} (pp : Table) (ns : Namespace D) : Except Err (Namespace D) := do
  let ns := { ns with inc_step_sign_change := -1 }
  let ns := { ns with
    inc_step_sign_change := ← query Tok.asInt pp "inc_step_sign_change" ns.inc_step_sign_change }
  let ns := { ns with TimeIntegratorOrder := ← get Tok.asInt pp "TimeIntegratorOrder" }
  let ns := { ns with prob_type := ← get Tok.asInt pp "prob_type" }
  let ns := { ns with mlmg_verbosity := 1 }
  let ns := { ns with mlmg_verbosity := ← query Tok.asInt pp "mlmg_verbosity" ns.mlmg_verbosity }
  return ns

/-- Lines 250-258: the permittivities and the first Landau coefficients. -/
def readPermittivity {D : Nat} (pp : Table) (ns : Namespace D) : Except Err (Namespace D) := do
  let ns := { ns with epsilon_0 := ← get Tok.asReal pp "epsilon_0" }
  let ns := { ns with epsilonX_fe := ← get Tok.asReal pp "epsilonX_fe" }
  let ns := { ns with epsilonZ_fe := ← get Tok.asReal pp "epsilonZ_fe" }
  let ns := { ns with epsilon_de := ← get Tok.asReal pp "epsilon_de" }
  let ns := { ns with epsilon_si := ← get Tok.asReal pp "epsilon_si" }
  let ns := { ns with alpha := ← get Tok.asReal pp "alpha" }
  let ns := { ns with beta := ← get Tok.asReal pp "beta" }
  let ns := { ns with gamma := ← get Tok.asReal pp "gamma" }
  let ns := { ns with alpha_12 := ← get Tok.asReal pp "alpha_12" }
  return ns

/-- Lines 259-267: the remaining Landau and gradient coefficients and `lambda`. -/
def readGradient {D : Nat} (pp : Table) (ns : Namespace D) : Except Err (Namespace D) := do
  let ns := { ns with alpha_112 := ← get Tok.asReal pp "alpha_112" }
  let ns := { ns with alpha_123 := ← get Tok.asReal pp "alpha_123" }
  let ns := { ns with BigGamma := ← get Tok.asReal pp "BigGamma" }
  let ns := { ns with g11 := ← get Tok.asReal pp "g11" }
  let ns := { ns with g44 := ← get Tok.asReal pp "g44" }
  let ns := { ns with g12 := ← get Tok.asReal pp "g12" }
  let ns := { ns with g44_p := ← get Tok.asReal pp "g44_p" }
  let ns := { ns with lambda := ← get Tok.asReal pp "lambda" }
  return ns

/-- Lines 270-282: step count, plot interval, time step, perturbation threshold. -/
def readRun {D : Nat} (pp : Table) (ns : Namespace D) : Except Err (Namespace D) := do
  let ns := { ns with nsteps := 10 }
  let ns := { ns with nsteps := ← query Tok.asInt pp "nsteps" ns.nsteps }
  let ns := { ns with plot_int := -1 }
  let ns := { ns with plot_int := ← query Tok.asInt pp "plot_int" ns.plot_int }
  let ns := { ns with dt := ← get Tok.asReal pp "dt" }
  let ns := { ns with delta := 1e-6 }
  let ns := { ns with delta := ← query Tok.asReal pp "delta" ns.delta }
  return ns

/-- Lines 286-322: the stack extents, read through the shared buffer `temp`. -/
def readStack (D : Nat) (pp : Table) (ns : Namespace D) : Except Err (Namespace D) := do
  let temp : List ℚ := List.replicate D 0
  let (found, temp) ← queryarr Tok.asReal 0 pp "DE_lo" temp
  let ns := { ns with DE_lo := ← copyIf found temp ns.DE_lo }
  let (found, temp) ← queryarr Tok.asReal 0 pp "DE_hi" temp
  let ns := { ns with DE_hi := ← copyIf found temp ns.DE_hi }
  let (found, temp) ← queryarr Tok.asReal 0 pp "FE_lo" temp
  let ns := { ns with FE_lo := ← copyIf found temp ns.FE_lo }
  let (found, temp) ← queryarr Tok.asReal 0 pp "FE_hi" temp
  let ns := { ns with FE_hi := ← copyIf found temp ns.FE_hi }
  let (found, temp) ← queryarr Tok.asReal 0 pp "SC_lo" temp
  let ns := { ns with SC_lo := ← copyIf found temp ns.SC_lo }
  let (found, temp) ← queryarr Tok.asReal 0 pp "SC_hi" temp
  let ns := { ns with SC_hi := ← copyIf found temp ns.SC_hi }
  return ns

/-- Lines 330-336: the constants of the semiconductor layer. -/
def setSemiconductor {D : Nat} (ns : Namespace D) : Namespace D :=
  { ns with Nc := 2.8e25, Nv := 1.04e25, Ec := 0.56, Ev := -0.56,
            q := 1.602e-19, kb := 1.38e-23, T := 300 }

/-- The function `InitializeFerroXNamespace()` of `Source/FerroX.cpp`, lines 216-338, in
the order of its statements: `pp` is the inputs table and `ns` the content of the
namespace at entry. -/
def InitializeFerroXNamespace (D : Nat) (pp : Table) (ns : Namespace D) :
    Except Err (Namespace D) := do
  let ns ← readBoundaryFlags D pp ns
  let ns ← readControl pp ns
  let ns ← readPermittivity pp ns
  let ns ← readGradient pp ns
  let ns ← readRun pp ns
  let ns ← readStack D pp ns
  return setSemiconductor ns

/-! ## The keys of the inputs file -/

/-- The keys read with `pp.get`, in the order of the source (lines 241-279). -/
def requiredKeys : List String :=
  ["TimeIntegratorOrder", "prob_type", "epsilon_0", "epsilonX_fe", "epsilonZ_fe",
   "epsilon_de", "epsilon_si", "alpha", "beta", "gamma", "alpha_12", "alpha_112",
   "alpha_123", "BigGamma", "g11", "g44", "g12", "g44_p", "lambda", "dt"]

/-- The inputs have a definition of `name`. -/
def Defines (pp : Table) (name : String) : Prop := name ∈ pp.map Prod.fst

instance (pp : Table) (name : String) : Decidable (Defines pp name) := by
  unfold Defines; infer_instance

/-- Value number 0 of `name`, when `name` is defined, reads as the type of `read`. -/
def scalarReads {α : Type} (read : Tok → Option α) (pp : Table) (name : String) : Bool :=
  match ppindex pp name with
  | none => true
  | some vals => (vals.head?.bind read).isSome

/-- All values of `name`, when `name` is defined, read as the type of `read`. -/
def arrayReads {α : Type} (read : Tok → Option α) (pp : Table) (name : String) : Bool :=
  match ppindex pp name with
  | none => true
  | some vals => vals.all (fun t => (read t).isSome)

/-- Every value that ingestion reads has the type it is read as. -/
def WellTyped (pp : Table) : Prop :=
  (∀ name ∈ ["inc_step_sign_change", "TimeIntegratorOrder", "prob_type", "mlmg_verbosity",
      "nsteps", "plot_int"], scalarReads Tok.asInt pp name = true) ∧
  (∀ name ∈ ["epsilon_0", "epsilonX_fe", "epsilonZ_fe", "epsilon_de", "epsilon_si", "alpha",
      "beta", "gamma", "alpha_12", "alpha_112", "alpha_123", "BigGamma", "g11", "g44", "g12",
      "g44_p", "lambda", "dt", "delta"], scalarReads Tok.asReal pp name = true) ∧
  (∀ name ∈ ["P_BC_flag_lo", "P_BC_flag_hi"], arrayReads Tok.asInt pp name = true) ∧
  (∀ name ∈ ["DE_lo", "DE_hi", "FE_lo", "FE_hi", "SC_lo", "SC_hi"],
      arrayReads Tok.asReal pp name = true)

instance (pp : Table) : Decidable (WellTyped pp) := by
  unfold WellTyped; infer_instance

/-- What an optional scalar holds after ingestion: the default when `name` is not
defined, and otherwise the reading of value number 0 of the last definition of `name`. -/
def OptionalHolds {α : Type} (read : Tok → Option α) (pp : Table) (name : String)
    (dflt v : α) : Prop :=
  (¬ Defines pp name → v = dflt) ∧
  (Defines pp name → ∃ vals t, ppindex pp name = some vals ∧ vals.head? = some t ∧
    read t = some v)

/-! ## Sample inputs -/

/-- A token that reads as an integer (and so as a real). -/
def intTok (n : Int) : Tok := ⟨some n, some n, some n⟩

/-- A token that reads as a real only. -/
def realTok (r : ℚ) : Tok := ⟨none, some r, none⟩

/-- An inputs file with all required keys, `nsteps = 50`, four components for `DE_lo`,
one for `DE_hi`, and no other optional key. -/
def sampleInputs : Table :=
  [("TimeIntegratorOrder", [intTok 1]), ("prob_type", [intTok 2]),
   ("epsilon_0", [realTok 8.85e-12]), ("epsilonX_fe", [intTok 24]),
   ("epsilonZ_fe", [intTok 24]), ("epsilon_de", [intTok 10]), ("epsilon_si", [realTok 11.7]),
   ("alpha", [intTok 1]), ("beta", [intTok 1]), ("gamma", [intTok 1]), ("alpha_12", [intTok 0]),
   ("alpha_112", [intTok 0]), ("alpha_123", [intTok 0]), ("BigGamma", [intTok 100]),
   ("g11", [intTok 1]), ("g44", [intTok 1]), ("g12", [intTok 0]), ("g44_p", [intTok 0]),
   ("lambda", [intTok 3]), ("dt", [realTok 1e-13]),
   ("DE_lo", [intTok 1, intTok 2, intTok 3, intTok 4]), ("DE_hi", [intTok 9]),
   ("nsteps", [intTok 50])]

/-- The sample inputs without their definition of `epsilon_0`. -/
def sampleInputsNoEpsilon0 : Table := sampleInputs.filter (fun e => e.1 != "epsilon_0")

/-- The sample inputs with definitions added for the seven semiconductor constants. -/
def sampleInputsWithConstants : Table :=
  sampleInputs ++ [("Nc", [intTok 1]), ("Nv", [intTok 2]), ("Ec", [intTok 3]),
    ("Ev", [intTok 4]), ("q", [intTok 5]), ("kb", [intTok 6]), ("T", [intTok 7])]

/-- A namespace whose scalars are all 5 and whose array elements are all 7. -/
def sampleNamespace (D : Nat) : Namespace D :=
  { nsteps := 5, plot_int := 5, dt := 5,
    DE_lo := ⟨List.replicate D 7, by simp⟩, FE_lo := ⟨List.replicate D 7, by simp⟩,
    SC_lo := ⟨List.replicate D 7, by simp⟩, DE_hi := ⟨List.replicate D 7, by simp⟩,
    FE_hi := ⟨List.replicate D 7, by simp⟩, SC_hi := ⟨List.replicate D 7, by simp⟩,
    epsilon_0 := 5, epsilonX_fe := 5, epsilonZ_fe := 5, epsilon_de := 5, epsilon_si := 5,
    alpha := 5, beta := 5, gamma := 5, BigGamma := 5, g11 := 5, g44 := 5, g44_p := 5,
    g12 := 5, alpha_12 := 5, alpha_112 := 5, alpha_123 := 5, Nc := 5, Nv := 5, Ec := 5,
    Ev := 5, q := 5, kb := 5, T := 5, lambda := 5,
    P_BC_flag_lo := ⟨List.replicate D 7, by simp⟩,
    P_BC_flag_hi := ⟨List.replicate D 7, by simp⟩,
    prob_type := 5, mlmg_verbosity := 5, TimeIntegratorOrder := 5, delta := 5,
    inc_step_sign_change := 5 }

/-- What one block `if (pp.queryarr(name, temp)) { for ... dst[i] = temp[i]; }` does to
the buffer (`ref` before, `t` after) and to the array (`dst` before, `a` after): the
buffer keeps at least `D` elements; an undefined `name` changes neither; a defined one
puts its values at the front of the buffer, whose first `D` elements become the array. -/
def ArrStep {α : Type} {D : Nat} (read : Tok → Option α) (pp : Table) (name : String)
    (ref t : List α) (dst a : GpuArray α D) : Prop :=
  D ≤ t.length ∧
  (¬ Defines pp name → a = dst ∧ t = ref) ∧
  (∀ vals, ppindex pp name = some vals →
    ∃ parsed : List α, vals.map read = parsed.map some ∧
      t = parsed ++ ref.drop parsed.length ∧ a.data = t.take D)

/-- What a per-axis array holds after ingestion when `name` is defined with values `vals`
and the shared buffer held `buffer` before `name` was read: with at least `D` values, the
readings of the first `D` of them; with fewer, the readings of all of them followed by
the elements the buffer already held at the remaining indices. -/
def ArrayHolds {α : Type} (read : Tok → Option α) (D : Nat) (pp : Table) (name : String)
    (buffer data : List α) : Prop :=
  ∀ vals, ppindex pp name = some vals →
    (D ≤ vals.length → data.map some = (vals.take D).map read) ∧
    (vals.length < D → data.map some =
      vals.map read ++ ((buffer.drop vals.length).take (D - vals.length)).map some)

/-- The sample inputs without their definition of `DE_hi`. -/
def sampleInputsNoDEhi : Table := sampleInputs.filter (fun e => e.1 != "DE_hi")

/-! ## The application object `c_FerroX` -/

/-- The priority levels `Utils::MsgLogger::Priority` of a recorded message. -/
inductive Priority where
  | low
  | medium
  | high
deriving DecidableEq, Repr

/-- The priority levels `WarnPriority` of the argument of `RecordWarning`. -/
inductive WarnPriority where
  | low
  | medium
  | high
deriving DecidableEq, Repr

/-- A record handed to the warn manager. -/
structure Msg where
  topic : String
  text : String
  level : Priority
deriving DecidableEq, Repr

/-- Modelled from the spec: `Utils::WarnManager` (Utils/SelectWarpXUtils/WarnManager.H, not
under src/) keeps the records it is handed in arrival order. -/
structure WarnManager where
  records : List Msg
deriving DecidableEq, Repr

/-- Modelled from the spec: `WarnManager::record_warning(topic, text, priority)` (not under
src/) appends one record. -/
def WarnManager.record_warning (wm : WarnManager) (topic text : String) (level : Priority) :
    WarnManager :=
  ⟨wm.records ++ [⟨topic, text, level⟩]⟩

/-- Modelled from the spec: `Utils::MsgLogger::PriorityToString` (not under src/) gives the
human-readable label of a priority. -/
def PriorityToString : Priority → String
  | .low => "low"
  | .medium => "medium"
  | .high => "high"

/-- Modelled from the spec: `c_GeometryProperties` (Input/GeometryProperties, not under
src/) is constructed first and initialised later by its `InitData()`. -/
structure c_GeometryProperties where
  initialised : Bool
deriving DecidableEq, Repr

/-- Modelled from the spec: `c_GeometryProperties::InitData()` (not under src/) initialises
the geometry. -/
def c_GeometryProperties.InitData (_g : c_GeometryProperties) : c_GeometryProperties :=
  ⟨true⟩

/-- Modelled from the spec: `c_BoundaryConditions` (Input/BoundaryConditions, not under
src/), constructed by `ReadData`; nothing of its content is used here. -/
structure c_BoundaryConditions where
  constructed : Unit
deriving DecidableEq, Repr

/-- The members of a `c_FerroX` object. A `std::unique_ptr` member is `none` while null. -/
structure c_FerroX where
  m_timestep : Int
  m_total_steps : Int
  m_always_warn_immediately : Bool
  m_p_warn_manager : Option WarnManager
  m_pGeometryProperties : Option c_GeometryProperties
  m_pBoundaryConditions : Option c_BoundaryConditions
deriving DecidableEq, Repr

/-- What the lifecycle does, in the order in which it does it. `namespaceIngested` is a
completed run of `InitializeFerroXNamespace`. -/
inductive Event where
  | constructed (id : Nat)
  | readData (id : Nat)
  | geometryConstructed (id : Nat)
  | boundaryConstructed (id : Nat)
  | geometryInitialised (id : Nat)
  | destroyed (id : Nat)
  | namespaceIngested
deriving DecidableEq, Repr

/-- What is fixed outside `Source/FerroX.cpp`: whether `TIME_DEPENDENT` is defined, and the
members of the `n`-th object that `new` hands to the constructor before its body runs
(the integers are indeterminate, the flag has the value given in the header). -/
structure Env where
  TIME_DEPENDENT : Bool
  storage : Nat → c_FerroX

/-- The process state: the inputs table, the global namespace, the static pointer
`c_FerroX::m_instance`, the live objects by identity, the number of objects constructed
so far (the identity of the next one), and the events so far. An object is identified
by its rank of construction, so that two objects are the same object only if they were
constructed by the same `new`. -/
structure World (D : Nat) where
  pp : Table
  ns : Namespace D
  m_instance : Option Nat
  heap : Nat → Option c_FerroX
  allocated : Nat
  log : List Event

/-- The state at program start: `m_instance = nullptr`, no object, no event. -/
def World.initial {D : Nat} (pp : Table) (ns : Namespace D) : World D :=
  { pp := pp, ns := ns, m_instance := none, heap := fun _ => none, allocated := 0, log := [] }

/-- Modelled from the spec: `queryWithParser(pp, name, ref)` (Utils/SelectWarpXUtils/WarpXUtil.H,
not under src/) is an optional read through the expression parser: an absent `name`
leaves `ref` as it is. -/
def queryWithParser (pp : Table) (name : String) (ref : Int) : Except Err Int :=
  query Tok.asParsed pp name ref

/-- The member function `c_FerroX::ReadData()`, lines 119-143, on the object `self` of
identity `id`: returns the object and the events of the run. -/
def c_FerroX.ReadData (TIME_DEPENDENT : Bool) (pp : Table) (id : Nat) (self : c_FerroX) :
    Except Err (c_FerroX × List Event) := do
  let self := { self with m_timestep := 0 }
  let self := { self with m_total_steps := 1 }
  let self ← if TIME_DEPENDENT then do
      let self := { self with m_timestep := ← queryWithParser pp "timestep" self.m_timestep }
      let self := { self with m_total_steps := ← queryWithParser pp "steps" self.m_total_steps }
      pure self
    else pure self
  let self := { self with m_pGeometryProperties := some ⟨false⟩ }
  let self := { self with m_pBoundaryConditions := some ⟨()⟩ }
  return (self, [Event.readData id, Event.geometryConstructed id, Event.boundaryConstructed id])

/-- The expression `new c_FerroX()`: the constructor `c_FerroX::c_FerroX()`, lines 39-52,
run on fresh storage. Returns the identity of the object. -/
def c_FerroX.construct {D : Nat} (env : Env) (w : World D) : Except Err (Nat × World D) := do
  let id := w.allocated
  let self := env.storage id
  let w := { w with allocated := id + 1, log := w.log ++ [Event.constructed id] }
  let w := { w with m_instance := some id }
  let self := { self with m_p_warn_manager := some ⟨[]⟩ }
  let (self, events) ← c_FerroX.ReadData env.TIME_DEPENDENT w.pp id self
  return (id, { w with heap := fun j => if j = id then some self else w.heap j,
                       log := w.log ++ events })

/-- The static function `c_FerroX::GetInstance()`, lines 20-28: returns (the identity of)
the instance. -/
def GetInstance {D : Nat} (env : Env) (w : World D) : Except Err (Nat × World D) :=
  match w.m_instance with
  | some id => .ok (id, w)
  | none => do
    let (id, w) ← c_FerroX.construct env w
    return (id, { w with m_instance := some id })

/-- The static function `c_FerroX::ResetInstance()`, lines 31-36:
`delete m_instance; m_instance = nullptr;`. -/
def ResetInstance {D : Nat} (w : World D) : World D :=
  match w.m_instance with
  | none => w
  | some id =>
    { w with heap := fun j => if j = id then none else w.heap j,
             log := w.log ++ [Event.destroyed id], m_instance := none }

/-- The member function `c_FerroX::InitData()`, lines 146-159, called on the object of
identity `this`: `m_pGeometryProperties->InitData();`. -/
def c_FerroX.InitData {D : Nat} (this : Nat) (w : World D) : Except Err (World D) :=
  match w.heap this with
  | none => .error .nullPointer
  | some self =>
    match self.m_pGeometryProperties with
    | none => .error .nullPointer
    | some g =>
      let self := { self with m_pGeometryProperties := some g.InitData }
      .ok { w with heap := fun j => if j = this then some self else w.heap j,
                   log := w.log ++ [Event.geometryInitialised this] }

/-- The member function `c_FerroX::RecordWarning(topic, text, priority)`, lines 67-94:
returns the object and the messages sent through `amrex::Warning`. -/
def c_FerroX.RecordWarning (self : c_FerroX) (topic text : String) (priority : WarnPriority) :
    Except Err (c_FerroX × List String) :=
  let msg_priority := Priority.high
  let msg_priority :=
    if priority = WarnPriority.low then Priority.low
    else if priority = WarnPriority.medium then Priority.medium
    else msg_priority
  let warned :=
    if self.m_always_warn_immediately then
      ["!!!!!! WARNING: [" ++ PriorityToString msg_priority ++ "][" ++ topic ++ "] " ++ text]
    else []
  match self.m_p_warn_manager with
  | none => .error .nullPointer
  | some wm =>
    .ok ({ self with m_p_warn_manager := some (wm.record_warning topic text msg_priority) },
         warned)

/-- A run of `InitializeFerroXNamespace()` on the process state. -/
def World.ingest {D : Nat} (w : World D) : Except Err (World D) :=
  match InitializeFerroXNamespace D w.pp w.ns with
  | .error e => .error e
  | .ok ns => .ok { w with ns := ns, log := w.log ++ [Event.namespaceIngested] }

/-- The calls a client of the singleton makes. -/
inductive Call where
  | getInstance
  | initData
  | resetInstance
deriving DecidableEq, Repr

/-- A client and the process: the reference the client holds (the one that its last
`GetInstance()` returned) and the process state. -/
structure Client (D : Nat) where
  held : Option Nat
  world : World D

/-- One call of the client: `GetInstance()`, `InitData()` on the reference the client
holds, or `ResetInstance()`. -/
def Call.step {D : Nat} (env : Env) (c : Client D) : Call → Except Err (Client D)
  | .getInstance => do
    let (id, w) ← GetInstance env c.world
    return { held := some id, world := w }
  | .initData =>
    match c.held with
    | none => .error .nullPointer
    | some id => do
      let w ← c_FerroX.InitData id c.world
      return { c with world := w }
  | .resetInstance => .ok { c with world := ResetInstance c.world }

/-- A sequence of calls, from left to right. -/
def Call.run {D : Nat} (env : Env) : List Call → Client D → Except Err (Client D)
  | [], c => .ok c
  | call :: rest, c => do
    let c ← Call.step env c call
    Call.run env rest c

/-- A sequence of `RecordWarning` calls, from left to right: returns the object and the
messages sent through `amrex::Warning`, in order. -/
def c_FerroX.recordAll (self : c_FerroX) :
    List (String × String × WarnPriority) → Except Err (c_FerroX × List String)
  | [] => .ok (self, [])
  | (topic, text, priority) :: rest => do
    let (self, warned) ← self.RecordWarning topic text priority
    let (self, more) ← self.recordAll rest
    return (self, warned ++ more)

/-- The priority that corresponds to a `WarnPriority`: the level of the same name. -/
def sameLevel : WarnPriority → Priority
  | .low => .low
  | .medium => .medium
  | .high => .high

/-- In the log, every initialisation of a geometry comes after the `ReadData` of the same
object and after the construction of its geometry. -/
def GeometryInitAfterReadData (log : List Event) : Prop :=
  ∀ (before after : List Event) (id : Nat),
    log = before ++ Event.geometryInitialised id :: after →
      Event.readData id ∈ before ∧ Event.geometryConstructed id ∈ before

/-- An environment without `TIME_DEPENDENT` whose fresh storage holds a time-step index
of 77, a step count of 88 and a cleared warning flag. -/
def sampleEnv : Env :=
  { TIME_DEPENDENT := false, storage := fun _ => ⟨77, 88, false, none, none, none⟩ }

/-- A constructed object with an empty warn manager and the flag
`m_always_warn_immediately` set. -/
def sampleObject : c_FerroX :=
  { m_timestep := 0, m_total_steps := 1, m_always_warn_immediately := true,
    m_p_warn_manager := some ⟨[]⟩, m_pGeometryProperties := some ⟨false⟩,
    m_pBoundaryConditions := some ⟨()⟩ }

/-- The object `self` with `records` as the records of its warn manager and all other
members as they are. -/
def c_FerroX.withRecords (self : c_FerroX) (records : List Msg) : c_FerroX :=
  { self with m_p_warn_manager := some ⟨records⟩ }

/-- The state after the first `GetInstance()` of a run with the sample inputs. -/
def sampleLive : World 3 :=
  match GetInstance sampleEnv (World.initial sampleInputs (sampleNamespace 3)) with
  | .ok (_, w) => w
  | .error _ => World.initial sampleInputs (sampleNamespace 3)

/-- What holds in every state that calls of the singleton reach: `m_instance` points to
a live object when it is not null; every live object was constructed by a `new` that
has been counted, has a constructed geometry, and its `ReadData` and the construction
of its geometry are in the log; and the log has every geometry initialisation after
them. -/
def World.Inv {D : Nat} (w : World D) : Prop :=
  (∀ id, w.m_instance = some id → ∃ obj, w.heap id = some obj) ∧
  (∀ id obj, w.heap id = some obj →
    id < w.allocated ∧ (∃ g, obj.m_pGeometryProperties = some g) ∧
      Event.readData id ∈ w.log ∧ Event.geometryConstructed id ∈ w.log) ∧
  GeometryInitAfterReadData w.log

/-! ## Lemmas on the monad of results -/

theorem bind_eq_ok {ε α β : Type} (x : Except ε α) (f : α → Except ε β) (b : β) :
    (x >>= f) = Except.ok b ↔ ∃ a, x = Except.ok a ∧ f a = Except.ok b := by
  cases x with
  | error e => simp [bind, Except.bind]
  | ok a => simp [bind, Except.bind]

theorem bind_eq_error {ε α β : Type} (x : Except ε α) (f : α → Except ε β) (e : ε) :
    (x >>= f) = Except.error e ↔
      x = Except.error e ∨ ∃ a, x = Except.ok a ∧ f a = Except.error e := by
  cases x with
  | error e => simp [bind, Except.bind]
  | ok a => simp [bind, Except.bind]

/-! ## Lemmas on the reads of the inputs table -/

theorem get_eq_ok {α : Type} (read : Tok → Option α) (pp : Table) (name : String) (v : α) :
    get read pp name = .ok v ↔
      ∃ vals t, ppindex pp name = some vals ∧ vals.head? = some t ∧ read t = some v := by
  unfold get
  cases ppindex pp name with
  | none => simp
  | some vals =>
    cases vals with
    | nil => simp
    | cons t ts => cases h : read t <;> simp [h]

theorem get_absent {α : Type} (read : Tok → Option α) (pp : Table) (name : String)
    (h : ppindex pp name = none) : get read pp name = .error (.notFound name) := by
  simp [get, h]

theorem get_ne_outOfRange {α : Type} (read : Tok → Option α) (pp : Table) (name : String) :
    get read pp name ≠ .error .outOfRange := by
  unfold get
  cases ppindex pp name with
  | none => simp
  | some vals =>
    cases vals with
    | nil => simp
    | cons t ts => cases h : read t <;> simp [h]

theorem query_eq_ok {α : Type} (read : Tok → Option α) (pp : Table) (name : String)
    (ref v : α) :
    query read pp name ref = .ok v ↔
      (ppindex pp name = none ∧ v = ref) ∨
      ∃ vals t, ppindex pp name = some vals ∧ vals.head? = some t ∧ read t = some v := by
  unfold query
  cases ppindex pp name with
  | none => simp [eq_comm]
  | some vals =>
    cases vals with
    | nil => simp
    | cons t ts => cases h : read t <;> simp [h]

theorem query_ne_outOfRange {α : Type} (read : Tok → Option α) (pp : Table) (name : String)
    (ref : α) : query read pp name ref ≠ .error .outOfRange := by
  unfold query
  cases ppindex pp name with
  | none => simp
  | some vals =>
    cases vals with
    | nil => simp
    | cons t ts => cases h : read t <;> simp [h]

theorem readInto_ne_outOfRange {α : Type} (read : Tok → Option α) (name : String)
    (vals : List Tok) (n : Nat) (ref : List α) :
    readInto read name vals n ref ≠ .error .outOfRange := by
  induction vals generalizing n ref with
  | nil => simp [readInto]
  | cons t ts ih =>
    unfold readInto
    cases h : read t with
    | none => simp
    | some v => simpa using ih (n + 1) (ref.set n v)

theorem set_length_append {α : Type} (pre : List α) (m : α) (rest : List α) (v : α) :
    (pre ++ m :: rest).set pre.length v = pre ++ v :: rest := by
  induction pre with
  | nil => simp
  | cons a l ih => simp [ih]

theorem map_some_eq_nil {α : Type} (parsed : List α) (h : [] = parsed.map some) :
    parsed = [] := by
  cases parsed with
  | nil => rfl
  | cons a l => simp at h

/-- What `readInto` returns over a buffer `pre ++ mid ++ post` with one slot of `mid`
for each value: the values read take the place of `mid`. -/
theorem readInto_splice {α : Type} (read : Tok → Option α) (name : String)
    (vals : List Tok) (pre mid post out : List α) (hmid : mid.length = vals.length) :
    readInto read name vals pre.length (pre ++ mid ++ post) = .ok out ↔
      ∃ parsed : List α, vals.map read = parsed.map some ∧ out = pre ++ parsed ++ post := by
  induction vals generalizing pre mid out with
  | nil =>
    have hm : mid = [] := List.length_eq_zero.mp hmid
    subst hm
    simp only [readInto, Except.ok.injEq, List.map_nil, List.append_nil]
    constructor
    · rintro rfl
      exact ⟨[], by simp⟩
    · rintro ⟨parsed, hp, rfl⟩
      rw [map_some_eq_nil parsed hp]
      simp
  | cons t ts ih =>
    cases mid with
    | nil => simp at hmid
    | cons m ms =>
      simp only [List.length_cons, Nat.add_right_cancel_iff] at hmid
      unfold readInto
      cases h : read t with
      | none =>
        constructor
        · intro hc
          cases hc
        · rintro ⟨parsed, hp, _⟩
          cases parsed with
          | nil => simp at hp
          | cons a l => simp [h] at hp
      | some v =>
        have hset : (pre ++ m :: ms ++ post).set pre.length v = (pre ++ [v]) ++ ms ++ post := by
          have := set_length_append pre m (ms ++ post) v
          simp [this]
        have hlen : pre.length + 1 = (pre ++ [v]).length := by simp
        simp only [hset]
        rw [hlen, ih (pre ++ [v]) ms out hmid]
        constructor
        · rintro ⟨parsed, hp, rfl⟩
          exact ⟨v :: parsed, by simp [h, hp], by simp⟩
        · rintro ⟨parsed, hp, rfl⟩
          cases parsed with
          | nil => simp at hp
          | cons a l =>
            simp only [List.map_cons, h, List.cons.injEq, Option.some.injEq] at hp
            obtain ⟨rfl, hl⟩ := hp
            exact ⟨l, hl, by simp⟩

theorem map_some_length {α : Type} (vals : List Tok) (read : Tok → Option α) (parsed : List α)
    (h : vals.map read = parsed.map some) : parsed.length = vals.length := by
  have := congrArg List.length h
  simpa using this.symm

theorem queryarr_some {α : Type} (read : Tok → Option α) (zero : α) (pp : Table)
    (name : String) (ref out : List α) (b : Bool) (vals : List Tok)
    (hpp : ppindex pp name = some vals) :
    queryarr read zero pp name ref = .ok (b, out) ↔
      ∃ parsed, vals.map read = parsed.map some ∧
        b = true ∧ out = parsed ++ ref.drop parsed.length := by
  have hinj : ∀ p q : List α, vals.map read = p.map some → vals.map read = q.map some →
      p = q := fun p q hp hq =>
    (List.map_injective_iff.mpr (Option.some_injective α)) (hp.symm.trans hq)
  unfold queryarr
  rw [hpp]
  by_cases h0 : vals.length = 0
  · have hv : vals = [] := List.length_eq_zero.mp h0
    subst hv
    simp only [List.length_nil, ↓reduceIte, Except.ok.injEq, Prod.mk.injEq, List.map_nil]
    constructor
    · rintro ⟨rfl, rfl⟩
      exact ⟨[], by simp⟩
    · rintro ⟨parsed, hp, rfl, rfl⟩
      rw [map_some_eq_nil parsed hp]
      simp
  · simp only [h0, ↓reduceIte]
    by_cases hle : ref.length ≤ vals.length - 1
    · simp only [hle, ↓reduceIte]
      have hsp := fun o => readInto_splice read name vals []
        (ref ++ List.replicate (vals.length - ref.length) zero) [] o
        (by simp; omega)
      simp only [List.length_nil, List.nil_append, List.append_nil] at hsp
      cases hr : readInto read name vals 0
          (ref ++ List.replicate (vals.length - ref.length) zero) with
      | error e =>
        constructor
        · intro hc
          cases hc
        · rintro ⟨parsed, hp, _, _⟩
          have := (hsp parsed).mpr ⟨parsed, hp, rfl⟩
          rw [hr] at this
          cases this
      | ok o =>
        obtain ⟨parsed, hp, ho⟩ := (hsp o).mp hr
        have hl := map_some_length vals read parsed hp
        simp only [Except.ok.injEq, Prod.mk.injEq]
        constructor
        · rintro ⟨rfl, rfl⟩
          refine ⟨parsed, hp, rfl, ?_⟩
          rw [ho, List.drop_eq_nil_of_le (by omega)]
          simp
        · rintro ⟨parsed2, hp2, rfl, rfl⟩
          have := hinj parsed2 parsed hp2 hp
          subst this
          rw [ho, List.drop_eq_nil_of_le (by omega)]
          simp
    · simp only [hle, ↓reduceIte]
      have hsp := fun o => readInto_splice read name vals []
        (ref.take vals.length) (ref.drop vals.length) o (by simp; omega)
      simp only [List.length_nil, List.nil_append, List.take_append_drop] at hsp
      cases hr : readInto read name vals 0 ref with
      | error e =>
        constructor
        · intro hc
          cases hc
        · rintro ⟨parsed, hp, _, _⟩
          have := (hsp (parsed ++ ref.drop vals.length)).mpr ⟨parsed, hp, rfl⟩
          rw [hr] at this
          cases this
      | ok o =>
        obtain ⟨parsed, hp, ho⟩ := (hsp o).mp hr
        have hl := map_some_length vals read parsed hp
        simp only [Except.ok.injEq, Prod.mk.injEq]
        constructor
        · rintro ⟨rfl, rfl⟩
          exact ⟨parsed, hp, rfl, by rw [ho, hl]⟩
        · rintro ⟨parsed2, hp2, rfl, rfl⟩
          have := hinj parsed2 parsed hp2 hp
          subst this
          rw [ho, hl]
          simp

theorem queryarr_none {α : Type} (read : Tok → Option α) (zero : α) (pp : Table)
    (name : String) (ref : List α) (hpp : ppindex pp name = none) :
    queryarr read zero pp name ref = .ok (false, ref) := by
  simp [queryarr, hpp]

theorem queryarr_ne_outOfRange {α : Type} (read : Tok → Option α) (zero : α) (pp : Table)
    (name : String) (ref : List α) :
    queryarr read zero pp name ref ≠ .error .outOfRange := by
  unfold queryarr
  cases ppindex pp name with
  | none => simp
  | some vals =>
    by_cases h0 : vals.length = 0
    · simp [h0]
    · simp only [h0, ↓reduceIte]
      split
      · rename_i e he
        intro hc
        cases hc
        exact readInto_ne_outOfRange _ _ _ _ _ he
      · simp

/-- The buffer handed to `queryarr` never shrinks. -/
theorem queryarr_length {α : Type} (read : Tok → Option α) (zero : α) (pp : Table)
    (name : String) (ref out : List α) (b : Bool)
    (h : queryarr read zero pp name ref = .ok (b, out)) : ref.length ≤ out.length := by
  cases hpp : ppindex pp name with
  | none =>
    rw [queryarr_none read zero pp name ref hpp] at h
    cases h
    exact le_refl _
  | some vals =>
    obtain ⟨parsed, _, _, rfl⟩ := (queryarr_some read zero pp name ref out b vals hpp).mp h
    simp
    omega

/-! ## Lemmas on the copy loop -/

theorem GpuArray.ext_data {α : Type} {D : Nat} (a b : GpuArray α D) (h : a.data = b.data) :
    a = b := by
  cases a; cases b; simp at h; simp [h]

theorem copyFrom_splice {α : Type} {D : Nat} (temp : List α) (k : Nat) :
    ∀ (pre mid post : List α) (dst : GpuArray α D), dst.data = pre ++ mid ++ post →
      mid.length = k → pre.length + k ≤ temp.length →
      ∃ out, copyFrom temp k pre.length dst = .ok out ∧
        out.data = pre ++ (temp.drop pre.length).take k ++ post := by
  induction k with
  | zero =>
    intro pre mid post dst hd hm _
    have : mid = [] := List.length_eq_zero.mp hm
    subst this
    exact ⟨dst, by simp [copyFrom], by simpa using hd⟩
  | succ k ih =>
    intro pre mid post dst hd hm hlen
    cases mid with
    | nil => simp at hm
    | cons m ms =>
      simp only [List.length_cons, Nat.add_right_cancel_iff] at hm
      have hlt : pre.length < temp.length := by omega
      unfold copyFrom
      rw [List.getElem?_eq_getElem hlt]
      simp only
      have hset : (dst.set pre.length temp[pre.length]).data =
          (pre ++ [temp[pre.length]]) ++ ms ++ post := by
        simp [GpuArray.set, hd, set_length_append pre m (ms ++ post)]
      obtain ⟨out, ho, hdata⟩ := ih (pre ++ [temp[pre.length]]) ms post _ hset hm
        (by simp; omega)
      refine ⟨out, by simpa using ho, ?_⟩
      have hdrop : temp.drop pre.length = temp[pre.length] :: temp.drop (pre.length + 1) :=
        List.drop_eq_getElem_cons hlt
      rw [hdata]
      conv_rhs => rw [hdrop, List.take_succ_cons]
      simp only [List.length_append, List.length_singleton, List.append_assoc,
        List.singleton_append, List.cons_append, List.nil_append]

/-- A buffer with at least `D` elements: the loop returns, and the array holds the first
`D` elements of the buffer. -/
theorem copyLoop_ok {α : Type} {D : Nat} (temp : List α) (dst : GpuArray α D)
    (h : D ≤ temp.length) :
    ∃ out, copyLoop temp dst = .ok out ∧ out.data = temp.take D := by
  obtain ⟨out, ho, hdata⟩ := copyFrom_splice temp D [] dst.data [] dst (by simp) dst.size_eq
    (by simpa using h)
  exact ⟨out, by simpa [copyLoop] using ho, by simpa using hdata⟩

theorem copyFrom_short {α : Type} {D : Nat} (temp : List α) (k : Nat) :
    ∀ (i : Nat) (dst : GpuArray α D), temp.length < i + k → 0 < k →
      copyFrom temp k i dst = .error .outOfRange := by
  induction k with
  | zero => intro i dst _ h0; omega
  | succ k ih =>
    intro i dst hlen _
    unfold copyFrom
    cases hi : temp[i]? with
    | none => rfl
    | some v =>
      simp only
      have hlt : i < temp.length := by
        by_contra hc
        rw [List.getElem?_eq_none (by omega)] at hi
        cases hi
      exact ih (i + 1) _ (by omega) (by omega)

/-- A buffer with fewer than `D` elements: the loop reads outside it. -/
theorem copyLoop_short {α : Type} {D : Nat} (temp : List α) (dst : GpuArray α D)
    (h : temp.length < D) : copyLoop temp dst = .error .outOfRange :=
  copyFrom_short temp D 0 dst (by omega) (by omega)

theorem copyIf_false {α : Type} {D : Nat} (temp : List α) (dst out : GpuArray α D)
    (h : copyIf false temp dst = .ok out) : out = dst := by
  simp [copyIf] at h
  exact h.symm

theorem copyIf_true {α : Type} {D : Nat} (temp : List α) (dst out : GpuArray α D)
    (hlen : D ≤ temp.length) (h : copyIf true temp dst = .ok out) :
    out.data = temp.take D := by
  obtain ⟨o, ho, hd⟩ := copyLoop_ok temp dst hlen
  simp only [copyIf, ↓reduceIte, ho, Except.ok.injEq] at h
  rw [← h, hd]

theorem copyIf_isOk {α : Type} {D : Nat} (b : Bool) (temp : List α) (dst : GpuArray α D)
    (hlen : D ≤ temp.length) : ∃ out, copyIf b temp dst = .ok out := by
  cases b with
  | false => exact ⟨dst, by simp [copyIf]⟩
  | true =>
    obtain ⟨o, ho, _⟩ := copyLoop_ok temp dst hlen
    exact ⟨o, by simpa [copyIf] using ho⟩

/-! ## The phases of ingestion -/

theorem readControl_eq_ok {D : Nat} (pp : Table) (ns ns1 : Namespace D) :
    readControl pp ns = .ok ns1 ↔
    ∃ a b c d, query Tok.asInt pp "inc_step_sign_change" (-1) = .ok a ∧
      get Tok.asInt pp "TimeIntegratorOrder" = .ok b ∧
      get Tok.asInt pp "prob_type" = .ok c ∧
      query Tok.asInt pp "mlmg_verbosity" 1 = .ok d ∧
      ns1 = { ns with inc_step_sign_change := a, TimeIntegratorOrder := b, prob_type := c,
                      mlmg_verbosity := d } := by
  simp only [readControl, bind_eq_ok, pure, Except.pure, Except.ok.injEq]
  constructor
  · rintro ⟨a, ha, b, hb, c, hc, d, hd, rfl⟩
    exact ⟨a, b, c, d, ha, hb, hc, hd, rfl⟩
  · rintro ⟨a, b, c, d, ha, hb, hc, hd, rfl⟩
    exact ⟨a, ha, b, hb, c, hc, d, hd, rfl⟩

theorem readPermittivity_eq_ok {D : Nat} (pp : Table) (ns ns1 : Namespace D) :
    readPermittivity pp ns = .ok ns1 ↔
    ∃ a b c d e f g h i, get Tok.asReal pp "epsilon_0" = .ok a ∧
      get Tok.asReal pp "epsilonX_fe" = .ok b ∧
      get Tok.asReal pp "epsilonZ_fe" = .ok c ∧
      get Tok.asReal pp "epsilon_de" = .ok d ∧
      get Tok.asReal pp "epsilon_si" = .ok e ∧
      get Tok.asReal pp "alpha" = .ok f ∧
      get Tok.asReal pp "beta" = .ok g ∧
      get Tok.asReal pp "gamma" = .ok h ∧
      get Tok.asReal pp "alpha_12" = .ok i ∧
      ns1 = { ns with epsilon_0 := a, epsilonX_fe := b, epsilonZ_fe := c, epsilon_de := d,
                      epsilon_si := e, alpha := f, beta := g, gamma := h, alpha_12 := i } := by
  simp only [readPermittivity, bind_eq_ok, pure, Except.pure, Except.ok.injEq]
  constructor
  · rintro ⟨a, ha, b, hb, c, hc, d, hd, e, he, f, hf, g, hg, h, hh, i, hi, rfl⟩
    exact ⟨a, b, c, d, e, f, g, h, i, ha, hb, hc, hd, he, hf, hg, hh, hi, rfl⟩
  · rintro ⟨a, b, c, d, e, f, g, h, i, ha, hb, hc, hd, he, hf, hg, hh, hi, rfl⟩
    exact ⟨a, ha, b, hb, c, hc, d, hd, e, he, f, hf, g, hg, h, hh, i, hi, rfl⟩

theorem readGradient_eq_ok {D : Nat} (pp : Table) (ns ns1 : Namespace D) :
    readGradient pp ns = .ok ns1 ↔
    ∃ a b c d e f g h, get Tok.asReal pp "alpha_112" = .ok a ∧
      get Tok.asReal pp "alpha_123" = .ok b ∧
      get Tok.asReal pp "BigGamma" = .ok c ∧
      get Tok.asReal pp "g11" = .ok d ∧
      get Tok.asReal pp "g44" = .ok e ∧
      get Tok.asReal pp "g12" = .ok f ∧
      get Tok.asReal pp "g44_p" = .ok g ∧
      get Tok.asReal pp "lambda" = .ok h ∧
      ns1 = { ns with alpha_112 := a, alpha_123 := b, BigGamma := c, g11 := d,
                      g44 := e, g12 := f, g44_p := g, lambda := h } := by
  simp only [readGradient, bind_eq_ok, pure, Except.pure, Except.ok.injEq]
  constructor
  · rintro ⟨a, ha, b, hb, c, hc, d, hd, e, he, f, hf, g, hg, h, hh, rfl⟩
    exact ⟨a, b, c, d, e, f, g, h, ha, hb, hc, hd, he, hf, hg, hh, rfl⟩
  · rintro ⟨a, b, c, d, e, f, g, h, ha, hb, hc, hd, he, hf, hg, hh, rfl⟩
    exact ⟨a, ha, b, hb, c, hc, d, hd, e, he, f, hf, g, hg, h, hh, rfl⟩

theorem readRun_eq_ok {D : Nat} (pp : Table) (ns ns1 : Namespace D) :
    readRun pp ns = .ok ns1 ↔
    ∃ a b c d, query Tok.asInt pp "nsteps" 10 = .ok a ∧
      query Tok.asInt pp "plot_int" (-1) = .ok b ∧
      get Tok.asReal pp "dt" = .ok c ∧
      query Tok.asReal pp "delta" 1e-6 = .ok d ∧
      ns1 = { ns with nsteps := a, plot_int := b, dt := c, delta := d } := by
  simp only [readRun, bind_eq_ok, pure, Except.pure, Except.ok.injEq]
  constructor
  · rintro ⟨a, ha, b, hb, c, hc, d, hd, rfl⟩
    exact ⟨a, b, c, d, ha, hb, hc, hd, rfl⟩
  · rintro ⟨a, b, c, d, ha, hb, hc, hd, rfl⟩
    exact ⟨a, ha, b, hb, c, hc, d, hd, rfl⟩

theorem readBoundaryFlags_eq_ok (D : Nat) (pp : Table) (ns ns1 : Namespace D) :
    readBoundaryFlags D pp ns = .ok ns1 ↔
    ∃ b1 t1 a1 b2 t2 a2,
      queryarr Tok.asInt 0 pp "P_BC_flag_lo" (List.replicate D 0) = .ok (b1, t1) ∧
      copyIf b1 t1 ns.P_BC_flag_lo = .ok a1 ∧
      queryarr Tok.asInt 0 pp "P_BC_flag_hi" t1 = .ok (b2, t2) ∧
      copyIf b2 t2 ns.P_BC_flag_hi = .ok a2 ∧
      ns1 = { ns with P_BC_flag_lo := a1, P_BC_flag_hi := a2 } := by
  simp only [readBoundaryFlags, bind_eq_ok, pure, Except.pure, Except.ok.injEq, Prod.exists]
  constructor
  · rintro ⟨b1, t1, h1, a1, ha1, b2, t2, h2, a2, ha2, rfl⟩
    exact ⟨b1, t1, a1, b2, t2, a2, h1, ha1, h2, ha2, rfl⟩
  · rintro ⟨b1, t1, a1, b2, t2, a2, h1, ha1, h2, ha2, rfl⟩
    exact ⟨b1, t1, h1, a1, ha1, b2, t2, h2, a2, ha2, rfl⟩

theorem readStack_eq_ok (D : Nat) (pp : Table) (ns ns1 : Namespace D) :
    readStack D pp ns = .ok ns1 ↔
    ∃ b1 t1 a1 b2 t2 a2 b3 t3 a3 b4 t4 a4 b5 t5 a5 b6 t6 a6,
      queryarr Tok.asReal 0 pp "DE_lo" (List.replicate D 0) = .ok (b1, t1) ∧
      copyIf b1 t1 ns.DE_lo = .ok a1 ∧
      queryarr Tok.asReal 0 pp "DE_hi" t1 = .ok (b2, t2) ∧
      copyIf b2 t2 ns.DE_hi = .ok a2 ∧
      queryarr Tok.asReal 0 pp "FE_lo" t2 = .ok (b3, t3) ∧
      copyIf b3 t3 ns.FE_lo = .ok a3 ∧
      queryarr Tok.asReal 0 pp "FE_hi" t3 = .ok (b4, t4) ∧
      copyIf b4 t4 ns.FE_hi = .ok a4 ∧
      queryarr Tok.asReal 0 pp "SC_lo" t4 = .ok (b5, t5) ∧
      copyIf b5 t5 ns.SC_lo = .ok a5 ∧
      queryarr Tok.asReal 0 pp "SC_hi" t5 = .ok (b6, t6) ∧
      copyIf b6 t6 ns.SC_hi = .ok a6 ∧
      ns1 = { ns with DE_lo := a1, DE_hi := a2, FE_lo := a3, FE_hi := a4,
                      SC_lo := a5, SC_hi := a6 } := by
  simp only [readStack, bind_eq_ok, pure, Except.pure, Except.ok.injEq, Prod.exists]
  constructor
  · rintro ⟨b1, t1, h1, a1, ha1, b2, t2, h2, a2, ha2, b3, t3, h3, a3, ha3, b4, t4, h4, a4, ha4,
      b5, t5, h5, a5, ha5, b6, t6, h6, a6, ha6, rfl⟩
    exact ⟨b1, t1, a1, b2, t2, a2, b3, t3, a3, b4, t4, a4, b5, t5, a5, b6, t6, a6,
      h1, ha1, h2, ha2, h3, ha3, h4, ha4, h5, ha5, h6, ha6, rfl⟩
  · rintro ⟨b1, t1, a1, b2, t2, a2, b3, t3, a3, b4, t4, a4, b5, t5, a5, b6, t6, a6,
      h1, ha1, h2, ha2, h3, ha3, h4, ha4, h5, ha5, h6, ha6, rfl⟩
    exact ⟨b1, t1, h1, a1, ha1, b2, t2, h2, a2, ha2, b3, t3, h3, a3, ha3, b4, t4, h4, a4, ha4,
      b5, t5, h5, a5, ha5, b6, t6, h6, a6, ha6, rfl⟩

theorem InitializeFerroXNamespace_eq_ok (D : Nat) (pp : Table) (ns out : Namespace D) :
    InitializeFerroXNamespace D pp ns = .ok out ↔
    ∃ n1 n2 n3 n4 n5 n6, readBoundaryFlags D pp ns = .ok n1 ∧ readControl pp n1 = .ok n2 ∧
      readPermittivity pp n2 = .ok n3 ∧ readGradient pp n3 = .ok n4 ∧
      readRun pp n4 = .ok n5 ∧ readStack D pp n5 = .ok n6 ∧ out = setSemiconductor n6 := by
  simp only [InitializeFerroXNamespace, bind_eq_ok, pure, Except.pure, Except.ok.injEq]
  constructor
  · rintro ⟨n1, h1, n2, h2, n3, h3, n4, h4, n5, h5, n6, h6, rfl⟩
    exact ⟨n1, n2, n3, n4, n5, n6, h1, h2, h3, h4, h5, h6, rfl⟩
  · rintro ⟨n1, n2, n3, n4, n5, n6, h1, h2, h3, h4, h5, h6, rfl⟩
    exact ⟨n1, h1, n2, h2, n3, h3, n4, h4, n5, h5, n6, h6, rfl⟩

/-! ## No read outside the buffer -/

theorem copyIf_ne_outOfRange {α : Type} {D : Nat} (b : Bool) (temp : List α)
    (dst : GpuArray α D) (hlen : D ≤ temp.length) :
    copyIf b temp dst ≠ .error .outOfRange := by
  obtain ⟨out, ho⟩ := copyIf_isOk b temp dst hlen
  rw [ho]
  intro hc
  cases hc

theorem readControl_ne_outOfRange {D : Nat} (pp : Table) (ns : Namespace D) :
    readControl pp ns ≠ .error .outOfRange := by
  simp [readControl, bind_eq_error, get_ne_outOfRange, query_ne_outOfRange, pure, Except.pure]

theorem readPermittivity_ne_outOfRange {D : Nat} (pp : Table) (ns : Namespace D) :
    readPermittivity pp ns ≠ .error .outOfRange := by
  simp [readPermittivity, bind_eq_error, get_ne_outOfRange, pure, Except.pure]

theorem readGradient_ne_outOfRange {D : Nat} (pp : Table) (ns : Namespace D) :
    readGradient pp ns ≠ .error .outOfRange := by
  simp [readGradient, bind_eq_error, get_ne_outOfRange, pure, Except.pure]

theorem readRun_ne_outOfRange {D : Nat} (pp : Table) (ns : Namespace D) :
    readRun pp ns ≠ .error .outOfRange := by
  simp [readRun, bind_eq_error, get_ne_outOfRange, query_ne_outOfRange, pure, Except.pure]

theorem readBoundaryFlags_ne_outOfRange (D : Nat) (pp : Table) (ns : Namespace D) :
    readBoundaryFlags D pp ns ≠ .error .outOfRange := by
  intro h
  simp only [readBoundaryFlags, bind_eq_error, pure, Except.pure, Prod.exists, reduceCtorEq,
    and_false, exists_false, or_false] at h
  rcases h with h | ⟨b1, t1, h1, h⟩
  · exact queryarr_ne_outOfRange _ _ _ _ _ h
  have l1 : D ≤ t1.length := by simpa using queryarr_length _ _ _ _ _ _ _ h1
  rcases h with h | ⟨a1, -, h⟩
  · exact copyIf_ne_outOfRange _ _ _ l1 h
  rcases h with h | ⟨b2, t2, h2, h⟩
  · exact queryarr_ne_outOfRange _ _ _ _ _ h
  have l2 : D ≤ t2.length := le_trans l1 (queryarr_length _ _ _ _ _ _ _ h2)
  exact copyIf_ne_outOfRange _ _ _ l2 h

theorem readStack_ne_outOfRange (D : Nat) (pp : Table) (ns : Namespace D) :
    readStack D pp ns ≠ .error .outOfRange := by
  intro h
  simp only [readStack, bind_eq_error, pure, Except.pure, Prod.exists, reduceCtorEq,
    and_false, exists_false, or_false] at h
  rcases h with h | ⟨b1, t1, h1, h⟩
  · exact queryarr_ne_outOfRange _ _ _ _ _ h
  have l1 : D ≤ t1.length := by simpa using queryarr_length _ _ _ _ _ _ _ h1
  rcases h with h | ⟨a1, -, h⟩
  · exact copyIf_ne_outOfRange _ _ _ l1 h
  rcases h with h | ⟨b2, t2, h2, h⟩
  · exact queryarr_ne_outOfRange _ _ _ _ _ h
  have l2 : D ≤ t2.length := le_trans l1 (queryarr_length _ _ _ _ _ _ _ h2)
  rcases h with h | ⟨a2, -, h⟩
  · exact copyIf_ne_outOfRange _ _ _ l2 h
  rcases h with h | ⟨b3, t3, h3, h⟩
  · exact queryarr_ne_outOfRange _ _ _ _ _ h
  have l3 : D ≤ t3.length := le_trans l2 (queryarr_length _ _ _ _ _ _ _ h3)
  rcases h with h | ⟨a3, -, h⟩
  · exact copyIf_ne_outOfRange _ _ _ l3 h
  rcases h with h | ⟨b4, t4, h4, h⟩
  · exact queryarr_ne_outOfRange _ _ _ _ _ h
  have l4 : D ≤ t4.length := le_trans l3 (queryarr_length _ _ _ _ _ _ _ h4)
  rcases h with h | ⟨a4, -, h⟩
  · exact copyIf_ne_outOfRange _ _ _ l4 h
  rcases h with h | ⟨b5, t5, h5, h⟩
  · exact queryarr_ne_outOfRange _ _ _ _ _ h
  have l5 : D ≤ t5.length := le_trans l4 (queryarr_length _ _ _ _ _ _ _ h5)
  rcases h with h | ⟨a5, -, h⟩
  · exact copyIf_ne_outOfRange _ _ _ l5 h
  rcases h with h | ⟨b6, t6, h6, h⟩
  · exact queryarr_ne_outOfRange _ _ _ _ _ h
  have l6 : D ≤ t6.length := le_trans l5 (queryarr_length _ _ _ _ _ _ _ h6)
  exact copyIf_ne_outOfRange _ _ _ l6 h

theorem InitializeFerroXNamespace_ne_outOfRange (D : Nat) (pp : Table) (ns : Namespace D) :
    InitializeFerroXNamespace D pp ns ≠ .error .outOfRange := by
  intro h
  simp only [InitializeFerroXNamespace, bind_eq_error, pure, Except.pure, reduceCtorEq,
    and_false, exists_false, or_false] at h
  rcases h with h | ⟨n1, -, h⟩
  · exact readBoundaryFlags_ne_outOfRange _ _ _ h
  rcases h with h | ⟨n2, -, h⟩
  · exact readControl_ne_outOfRange _ _ h
  rcases h with h | ⟨n3, -, h⟩
  · exact readPermittivity_ne_outOfRange _ _ h
  rcases h with h | ⟨n4, -, h⟩
  · exact readGradient_ne_outOfRange _ _ h
  rcases h with h | ⟨n5, -, h⟩
  · exact readRun_ne_outOfRange _ _ h
  exact readStack_ne_outOfRange _ _ _ h

/-! ## Presence of keys and success of ingestion -/

theorem ppindex_eq_none_iff (pp : Table) (name : String) :
    ppindex pp name = none ↔ ¬ Defines pp name := by
  simp only [ppindex, Defines, Option.map_eq_none', List.find?_eq_none, List.mem_reverse,
    beq_iff_eq, Prod.forall, List.mem_map, Prod.exists, exists_and_right, exists_eq_right,
    not_exists]
  constructor
  · intro h x hx
    exact h name x hx rfl
  · rintro h a b hab rfl
    exact h b hab

theorem get_ok_defines {α : Type} (read : Tok → Option α) (pp : Table) (name : String) (v : α)
    (h : get read pp name = .ok v) : Defines pp name := by
  obtain ⟨vals, t, hv, _, _⟩ := (get_eq_ok read pp name v).mp h
  by_contra hc
  rw [(ppindex_eq_none_iff pp name).mpr hc] at hv
  cases hv

theorem get_isOk {α : Type} (read : Tok → Option α) (pp : Table) (name : String)
    (hd : Defines pp name) (hr : scalarReads read pp name = true) :
    ∃ v, get read pp name = .ok v := by
  cases hpp : ppindex pp name with
  | none => exact absurd hd ((ppindex_eq_none_iff pp name).mp hpp)
  | some vals =>
    simp only [scalarReads, hpp] at hr
    cases vals with
    | nil => simp at hr
    | cons t ts =>
      cases ht : read t with
      | none => simp [ht] at hr
      | some v => exact ⟨v, (get_eq_ok read pp name v).mpr ⟨_, t, hpp, rfl, ht⟩⟩

theorem query_isOk {α : Type} (read : Tok → Option α) (pp : Table) (name : String) (ref : α)
    (hr : scalarReads read pp name = true) : ∃ v, query read pp name ref = .ok v := by
  cases hpp : ppindex pp name with
  | none => exact ⟨ref, (query_eq_ok read pp name ref ref).mpr (Or.inl ⟨hpp, rfl⟩)⟩
  | some vals =>
    simp only [scalarReads, hpp] at hr
    cases vals with
    | nil => simp at hr
    | cons t ts =>
      cases ht : read t with
      | none => simp [ht] at hr
      | some v =>
        exact ⟨v, (query_eq_ok read pp name ref v).mpr (Or.inr ⟨_, t, hpp, rfl, ht⟩)⟩

theorem all_isSome_parsed {α : Type} (read : Tok → Option α) (vals : List Tok)
    (h : vals.all (fun t => (read t).isSome) = true) :
    ∃ parsed : List α, vals.map read = parsed.map some := by
  induction vals with
  | nil => exact ⟨[], rfl⟩
  | cons t ts ih =>
    simp only [List.all_cons, Bool.and_eq_true] at h
    obtain ⟨parsed, hp⟩ := ih h.2
    cases ht : read t with
    | none => simp [ht] at h
    | some v => exact ⟨v :: parsed, by simp [ht, hp]⟩

theorem queryarr_isOk {α : Type} (read : Tok → Option α) (zero : α) (pp : Table)
    (name : String) (ref : List α) (hr : arrayReads read pp name = true) :
    ∃ b out, queryarr read zero pp name ref = .ok (b, out) ∧ ref.length ≤ out.length := by
  cases hpp : ppindex pp name with
  | none =>
    exact ⟨false, ref, queryarr_none read zero pp name ref hpp, le_refl _⟩
  | some vals =>
    simp only [arrayReads, hpp] at hr
    obtain ⟨parsed, hp⟩ := all_isSome_parsed read vals hr
    have h := (queryarr_some read zero pp name ref _ true vals hpp).mpr ⟨parsed, hp, rfl, rfl⟩
    exact ⟨true, _, h, queryarr_length _ _ _ _ _ _ _ h⟩

theorem readBoundaryFlags_isOk (D : Nat) (pp : Table) (ns : Namespace D) (hwt : WellTyped pp) :
    ∃ n1, readBoundaryFlags D pp ns = .ok n1 := by
  obtain ⟨-, -, hA, -⟩ := hwt
  obtain ⟨b1, t1, h1, l1⟩ := queryarr_isOk Tok.asInt 0 pp "P_BC_flag_lo"
    (List.replicate D 0) (hA _ (by simp))
  simp only [List.length_replicate] at l1
  obtain ⟨a1, ha1⟩ := copyIf_isOk b1 t1 ns.P_BC_flag_lo l1
  obtain ⟨b2, t2, h2, l2⟩ := queryarr_isOk Tok.asInt 0 pp "P_BC_flag_hi" t1 (hA _ (by simp))
  obtain ⟨a2, ha2⟩ := copyIf_isOk b2 t2 ns.P_BC_flag_hi (le_trans l1 l2)
  exact ⟨_, (readBoundaryFlags_eq_ok D pp ns _).mpr
    ⟨b1, t1, a1, b2, t2, a2, h1, ha1, h2, ha2, rfl⟩⟩

theorem readControl_isOk {D : Nat} (pp : Table) (ns : Namespace D)
    (hreq : ∀ k ∈ requiredKeys, Defines pp k) (hwt : WellTyped pp) :
    ∃ n1, readControl pp ns = .ok n1 := by
  obtain ⟨hI, -, -, -⟩ := hwt
  obtain ⟨a, ha⟩ := query_isOk Tok.asInt pp "inc_step_sign_change" (-1) (hI _ (by simp))
  obtain ⟨b, hb⟩ := get_isOk Tok.asInt pp "TimeIntegratorOrder"
    (hreq _ (by simp [requiredKeys])) (hI _ (by simp))
  obtain ⟨c, hc⟩ := get_isOk Tok.asInt pp "prob_type"
    (hreq _ (by simp [requiredKeys])) (hI _ (by simp))
  obtain ⟨d, hd⟩ := query_isOk Tok.asInt pp "mlmg_verbosity" 1 (hI _ (by simp))
  exact ⟨_, (readControl_eq_ok pp ns _).mpr ⟨a, b, c, d, ha, hb, hc, hd, rfl⟩⟩

theorem getReal_isOk (pp : Table) (name : String)
    (hreq : ∀ k ∈ requiredKeys, Defines pp k) (hwt : WellTyped pp)
    (hk : name ∈ requiredKeys)
    (hr : name ∈ ["epsilon_0", "epsilonX_fe", "epsilonZ_fe", "epsilon_de", "epsilon_si",
      "alpha", "beta", "gamma", "alpha_12", "alpha_112", "alpha_123", "BigGamma", "g11",
      "g44", "g12", "g44_p", "lambda", "dt", "delta"]) :
    ∃ v, get Tok.asReal pp name = .ok v :=
  get_isOk Tok.asReal pp name (hreq name hk) (hwt.2.1 name hr)

theorem readPermittivity_isOk {D : Nat} (pp : Table) (ns : Namespace D)
    (hreq : ∀ k ∈ requiredKeys, Defines pp k) (hwt : WellTyped pp) :
    ∃ n1, readPermittivity pp ns = .ok n1 := by
  obtain ⟨a, ha⟩ := getReal_isOk pp "epsilon_0" hreq hwt (by simp [requiredKeys]) (by simp)
  obtain ⟨b, hb⟩ := getReal_isOk pp "epsilonX_fe" hreq hwt (by simp [requiredKeys]) (by simp)
  obtain ⟨c, hc⟩ := getReal_isOk pp "epsilonZ_fe" hreq hwt (by simp [requiredKeys]) (by simp)
  obtain ⟨d, hd⟩ := getReal_isOk pp "epsilon_de" hreq hwt (by simp [requiredKeys]) (by simp)
  obtain ⟨e, he⟩ := getReal_isOk pp "epsilon_si" hreq hwt (by simp [requiredKeys]) (by simp)
  obtain ⟨f, hf⟩ := getReal_isOk pp "alpha" hreq hwt (by simp [requiredKeys]) (by simp)
  obtain ⟨g, hg⟩ := getReal_isOk pp "beta" hreq hwt (by simp [requiredKeys]) (by simp)
  obtain ⟨h, hh⟩ := getReal_isOk pp "gamma" hreq hwt (by simp [requiredKeys]) (by simp)
  obtain ⟨i, hi⟩ := getReal_isOk pp "alpha_12" hreq hwt (by simp [requiredKeys]) (by simp)
  exact ⟨_, (readPermittivity_eq_ok pp ns _).mpr
    ⟨a, b, c, d, e, f, g, h, i, ha, hb, hc, hd, he, hf, hg, hh, hi, rfl⟩⟩

theorem readGradient_isOk {D : Nat} (pp : Table) (ns : Namespace D)
    (hreq : ∀ k ∈ requiredKeys, Defines pp k) (hwt : WellTyped pp) :
    ∃ n1, readGradient pp ns = .ok n1 := by
  obtain ⟨a, ha⟩ := getReal_isOk pp "alpha_112" hreq hwt (by simp [requiredKeys]) (by simp)
  obtain ⟨b, hb⟩ := getReal_isOk pp "alpha_123" hreq hwt (by simp [requiredKeys]) (by simp)
  obtain ⟨c, hc⟩ := getReal_isOk pp "BigGamma" hreq hwt (by simp [requiredKeys]) (by simp)
  obtain ⟨d, hd⟩ := getReal_isOk pp "g11" hreq hwt (by simp [requiredKeys]) (by simp)
  obtain ⟨e, he⟩ := getReal_isOk pp "g44" hreq hwt (by simp [requiredKeys]) (by simp)
  obtain ⟨f, hf⟩ := getReal_isOk pp "g12" hreq hwt (by simp [requiredKeys]) (by simp)
  obtain ⟨g, hg⟩ := getReal_isOk pp "g44_p" hreq hwt (by simp [requiredKeys]) (by simp)
  obtain ⟨h, hh⟩ := getReal_isOk pp "lambda" hreq hwt (by simp [requiredKeys]) (by simp)
  exact ⟨_, (readGradient_eq_ok pp ns _).mpr
    ⟨a, b, c, d, e, f, g, h, ha, hb, hc, hd, he, hf, hg, hh, rfl⟩⟩

theorem readRun_isOk {D : Nat} (pp : Table) (ns : Namespace D)
    (hreq : ∀ k ∈ requiredKeys, Defines pp k) (hwt : WellTyped pp) :
    ∃ n1, readRun pp ns = .ok n1 := by
  obtain ⟨a, ha⟩ := query_isOk Tok.asInt pp "nsteps" 10 (hwt.1 _ (by simp))
  obtain ⟨b, hb⟩ := query_isOk Tok.asInt pp "plot_int" (-1) (hwt.1 _ (by simp))
  obtain ⟨c, hc⟩ := getReal_isOk pp "dt" hreq hwt (by simp [requiredKeys]) (by simp)
  obtain ⟨d, hd⟩ := query_isOk Tok.asReal pp "delta" 1e-6 (hwt.2.1 _ (by simp))
  exact ⟨_, (readRun_eq_ok pp ns _).mpr ⟨a, b, c, d, ha, hb, hc, hd, rfl⟩⟩

theorem readStack_isOk (D : Nat) (pp : Table) (ns : Namespace D) (hwt : WellTyped pp) :
    ∃ n1, readStack D pp ns = .ok n1 := by
  obtain ⟨-, -, -, hA⟩ := hwt
  obtain ⟨b1, t1, h1, l1⟩ := queryarr_isOk Tok.asReal 0 pp "DE_lo"
    (List.replicate D 0) (hA _ (by simp))
  simp only [List.length_replicate] at l1
  obtain ⟨a1, ha1⟩ := copyIf_isOk b1 t1 ns.DE_lo l1
  obtain ⟨b2, t2, h2, l2⟩ := queryarr_isOk Tok.asReal 0 pp "DE_hi" t1 (hA _ (by simp))
  replace l2 := le_trans l1 l2
  obtain ⟨a2, ha2⟩ := copyIf_isOk b2 t2 ns.DE_hi l2
  obtain ⟨b3, t3, h3, l3⟩ := queryarr_isOk Tok.asReal 0 pp "FE_lo" t2 (hA _ (by simp))
  replace l3 := le_trans l2 l3
  obtain ⟨a3, ha3⟩ := copyIf_isOk b3 t3 ns.FE_lo l3
  obtain ⟨b4, t4, h4, l4⟩ := queryarr_isOk Tok.asReal 0 pp "FE_hi" t3 (hA _ (by simp))
  replace l4 := le_trans l3 l4
  obtain ⟨a4, ha4⟩ := copyIf_isOk b4 t4 ns.FE_hi l4
  obtain ⟨b5, t5, h5, l5⟩ := queryarr_isOk Tok.asReal 0 pp "SC_lo" t4 (hA _ (by simp))
  replace l5 := le_trans l4 l5
  obtain ⟨a5, ha5⟩ := copyIf_isOk b5 t5 ns.SC_lo l5
  obtain ⟨b6, t6, h6, l6⟩ := queryarr_isOk Tok.asReal 0 pp "SC_hi" t5 (hA _ (by simp))
  replace l6 := le_trans l5 l6
  obtain ⟨a6, ha6⟩ := copyIf_isOk b6 t6 ns.SC_hi l6
  exact ⟨_, (readStack_eq_ok D pp ns _).mpr
    ⟨b1, t1, a1, b2, t2, a2, b3, t3, a3, b4, t4, a4, b5, t5, a5, b6, t6, a6,
      h1, ha1, h2, ha2, h3, ha3, h4, ha4, h5, ha5, h6, ha6, rfl⟩⟩

/-- Inputs that define every required key and whose values read as their types are
ingested: the function returns a namespace. -/
theorem InitializeFerroXNamespace_isOk (D : Nat) (pp : Table) (ns : Namespace D)
    (hreq : ∀ k ∈ requiredKeys, Defines pp k) (hwt : WellTyped pp) :
    ∃ out, InitializeFerroXNamespace D pp ns = .ok out := by
  obtain ⟨n1, h1⟩ := readBoundaryFlags_isOk D pp ns hwt
  obtain ⟨n2, h2⟩ := readControl_isOk pp n1 hreq hwt
  obtain ⟨n3, h3⟩ := readPermittivity_isOk pp n2 hreq hwt
  obtain ⟨n4, h4⟩ := readGradient_isOk pp n3 hreq hwt
  obtain ⟨n5, h5⟩ := readRun_isOk pp n4 hreq hwt
  obtain ⟨n6, h6⟩ := readStack_isOk D pp n5 hwt
  exact ⟨_, (InitializeFerroXNamespace_eq_ok D pp ns _).mpr
    ⟨n1, n2, n3, n4, n5, n6, h1, h2, h3, h4, h5, h6, rfl⟩⟩

/-! ## What a completed ingestion has read -/

theorem ok_defines_required (D : Nat) (pp : Table) (ns out : Namespace D)
    (h : InitializeFerroXNamespace D pp ns = .ok out) : ∀ k ∈ requiredKeys, Defines pp k := by
  obtain ⟨n1, n2, n3, n4, n5, n6, -, h2, h3, h4, h5, -, -⟩ :=
    (InitializeFerroXNamespace_eq_ok D pp ns out).mp h
  obtain ⟨_, _, _, _, -, c1, c2, -, -⟩ := (readControl_eq_ok pp n1 n2).mp h2
  obtain ⟨_, _, _, _, _, _, _, _, _, p1, p2, p3, p4, p5, p6, p7, p8, p9, -⟩ :=
    (readPermittivity_eq_ok pp n2 n3).mp h3
  obtain ⟨_, _, _, _, _, _, _, _, g1, g2, g3, g4, g5, g6, g7, g8, -⟩ :=
    (readGradient_eq_ok pp n3 n4).mp h4
  obtain ⟨_, _, _, _, -, -, r1, -, -⟩ := (readRun_eq_ok pp n4 n5).mp h5
  intro k hk
  simp only [requiredKeys, List.mem_cons, List.mem_singleton, List.not_mem_nil, or_false] at hk
  rcases hk with rfl | rfl | rfl | rfl | rfl | rfl | rfl | rfl | rfl | rfl | rfl | rfl | rfl |
    rfl | rfl | rfl | rfl | rfl | rfl | rfl
  · exact get_ok_defines _ _ _ _ c1
  · exact get_ok_defines _ _ _ _ c2
  · exact get_ok_defines _ _ _ _ p1
  · exact get_ok_defines _ _ _ _ p2
  · exact get_ok_defines _ _ _ _ p3
  · exact get_ok_defines _ _ _ _ p4
  · exact get_ok_defines _ _ _ _ p5
  · exact get_ok_defines _ _ _ _ p6
  · exact get_ok_defines _ _ _ _ p7
  · exact get_ok_defines _ _ _ _ p8
  · exact get_ok_defines _ _ _ _ p9
  · exact get_ok_defines _ _ _ _ g1
  · exact get_ok_defines _ _ _ _ g2
  · exact get_ok_defines _ _ _ _ g3
  · exact get_ok_defines _ _ _ _ g4
  · exact get_ok_defines _ _ _ _ g5
  · exact get_ok_defines _ _ _ _ g6
  · exact get_ok_defines _ _ _ _ g7
  · exact get_ok_defines _ _ _ _ g8
  · exact get_ok_defines _ _ _ _ r1

theorem query_ok_holds {α : Type} (read : Tok → Option α) (pp : Table) (name : String)
    (dflt v : α) (h : query read pp name dflt = .ok v) : OptionalHolds read pp name dflt v := by
  rcases (query_eq_ok read pp name dflt v).mp h with ⟨hn, hv⟩ | ⟨vals, t, hs, ht, hr⟩
  · exact ⟨fun _ => hv, fun hd => absurd hd ((ppindex_eq_none_iff pp name).mp hn)⟩
  · refine ⟨fun hd => ?_, fun _ => ⟨vals, t, hs, ht, hr⟩⟩
    rw [(ppindex_eq_none_iff pp name).mpr hd] at hs
    cases hs

theorem ok_optional_scalars (D : Nat) (pp : Table) (ns out : Namespace D)
    (h : InitializeFerroXNamespace D pp ns = .ok out) :
    query Tok.asInt pp "inc_step_sign_change" (-1) = .ok out.inc_step_sign_change ∧
    query Tok.asInt pp "mlmg_verbosity" 1 = .ok out.mlmg_verbosity ∧
    query Tok.asInt pp "nsteps" 10 = .ok out.nsteps ∧
    query Tok.asInt pp "plot_int" (-1) = .ok out.plot_int ∧
    query Tok.asReal pp "delta" 1e-6 = .ok out.delta := by
  obtain ⟨n1, n2, n3, n4, n5, n6, -, h2, h3, h4, h5, h6, rfl⟩ :=
    (InitializeFerroXNamespace_eq_ok D pp ns out).mp h
  obtain ⟨_, _, _, _, c0, -, -, c3, rfl⟩ := (readControl_eq_ok pp n1 n2).mp h2
  obtain ⟨_, _, _, _, _, _, _, _, _, -, -, -, -, -, -, -, -, -, rfl⟩ :=
    (readPermittivity_eq_ok pp _ n3).mp h3
  obtain ⟨_, _, _, _, _, _, _, _, -, -, -, -, -, -, -, -, rfl⟩ :=
    (readGradient_eq_ok pp _ n4).mp h4
  obtain ⟨_, _, _, _, r0, r1, -, r3, rfl⟩ := (readRun_eq_ok pp _ n5).mp h5
  obtain ⟨_, _, _, _, _, _, _, _, _, _, _, _, _, _, _, _, _, _,
    -, -, -, -, -, -, -, -, -, -, -, -, rfl⟩ := (readStack_eq_ok D pp _ n6).mp h6
  exact ⟨c0, c3, r0, r1, r3⟩

theorem ok_semiconductor (D : Nat) (pp : Table) (ns out : Namespace D)
    (h : InitializeFerroXNamespace D pp ns = .ok out) :
    out.Nc = 2.8e25 ∧ out.Nv = 1.04e25 ∧ out.Ec = 0.56 ∧ out.Ev = -0.56 ∧
      out.q = 1.602e-19 ∧ out.kb = 1.38e-23 ∧ out.T = 300 := by
  obtain ⟨n1, n2, n3, n4, n5, n6, -, -, -, -, -, -, rfl⟩ :=
    (InitializeFerroXNamespace_eq_ok D pp ns out).mp h
  exact ⟨rfl, rfl, rfl, rfl, rfl, rfl, rfl⟩

/-! ## The per-axis arrays -/

theorem arrStep_of {α : Type} {D : Nat} (read : Tok → Option α) (zero : α) (pp : Table)
    (name : String) (ref t : List α) (b : Bool) (dst a : GpuArray α D)
    (hlen : D ≤ ref.length) (hq : queryarr read zero pp name ref = .ok (b, t))
    (hc : copyIf b t dst = .ok a) : ArrStep read pp name ref t dst a := by
  have hl : D ≤ t.length := le_trans hlen (queryarr_length _ _ _ _ _ _ _ hq)
  refine ⟨hl, ?_, ?_⟩
  · intro hd
    have hn := (ppindex_eq_none_iff pp name).mpr hd
    rw [queryarr_none read zero pp name ref hn] at hq
    cases hq
    exact ⟨copyIf_false _ _ _ hc, rfl⟩
  · intro vals hv
    obtain ⟨parsed, hp, rfl, rfl⟩ := (queryarr_some read zero pp name ref t b vals hv).mp hq
    exact ⟨parsed, hp, rfl, copyIf_true _ _ _ hl hc⟩

/-- The arrays after a completed ingestion, with the states of the two shared buffers
after each `queryarr`. -/
theorem ok_arrays (D : Nat) (pp : Table) (ns out : Namespace D)
    (h : InitializeFerroXNamespace D pp ns = .ok out) :
    ∃ (u1 u2 : List Int) (t1 t2 t3 t4 t5 t6 : List ℚ),
      ArrStep Tok.asInt pp "P_BC_flag_lo" (List.replicate D 0) u1
        ns.P_BC_flag_lo out.P_BC_flag_lo ∧
      ArrStep Tok.asInt pp "P_BC_flag_hi" u1 u2 ns.P_BC_flag_hi out.P_BC_flag_hi ∧
      ArrStep Tok.asReal pp "DE_lo" (List.replicate D 0) t1 ns.DE_lo out.DE_lo ∧
      ArrStep Tok.asReal pp "DE_hi" t1 t2 ns.DE_hi out.DE_hi ∧
      ArrStep Tok.asReal pp "FE_lo" t2 t3 ns.FE_lo out.FE_lo ∧
      ArrStep Tok.asReal pp "FE_hi" t3 t4 ns.FE_hi out.FE_hi ∧
      ArrStep Tok.asReal pp "SC_lo" t4 t5 ns.SC_lo out.SC_lo ∧
      ArrStep Tok.asReal pp "SC_hi" t5 t6 ns.SC_hi out.SC_hi := by
  obtain ⟨n1, n2, n3, n4, n5, n6, h1, h2, h3, h4, h5, h6, rfl⟩ :=
    (InitializeFerroXNamespace_eq_ok D pp ns out).mp h
  obtain ⟨c1, u1, x1, c2, u2, x2, q1, k1, q2, k2, rfl⟩ :=
    (readBoundaryFlags_eq_ok D pp ns n1).mp h1
  obtain ⟨_, _, _, _, -, -, -, -, rfl⟩ := (readControl_eq_ok pp _ n2).mp h2
  obtain ⟨_, _, _, _, _, _, _, _, _, -, -, -, -, -, -, -, -, -, rfl⟩ :=
    (readPermittivity_eq_ok pp _ n3).mp h3
  obtain ⟨_, _, _, _, _, _, _, _, -, -, -, -, -, -, -, -, rfl⟩ :=
    (readGradient_eq_ok pp _ n4).mp h4
  obtain ⟨_, _, _, _, -, -, -, -, rfl⟩ := (readRun_eq_ok pp _ n5).mp h5
  obtain ⟨b1, t1, a1, b2, t2, a2, b3, t3, a3, b4, t4, a4, b5, t5, a5, b6, t6, a6,
    s1, m1, s2, m2, s3, m3, s4, m4, s5, m5, s6, m6, rfl⟩ := (readStack_eq_ok D pp _ n6).mp h6
  have e1 := arrStep_of Tok.asInt 0 pp _ _ _ _ _ _ (by simp) q1 k1
  have e2 := arrStep_of Tok.asInt 0 pp _ _ _ _ _ _ e1.1 q2 k2
  have f1 := arrStep_of Tok.asReal 0 pp _ _ _ _ _ _ (by simp) s1 m1
  have f2 := arrStep_of Tok.asReal 0 pp _ _ _ _ _ _ f1.1 s2 m2
  have f3 := arrStep_of Tok.asReal 0 pp _ _ _ _ _ _ f2.1 s3 m3
  have f4 := arrStep_of Tok.asReal 0 pp _ _ _ _ _ _ f3.1 s4 m4
  have f5 := arrStep_of Tok.asReal 0 pp _ _ _ _ _ _ f4.1 s5 m5
  have f6 := arrStep_of Tok.asReal 0 pp _ _ _ _ _ _ f5.1 s6 m6
  exact ⟨u1, u2, t1, t2, t3, t4, t5, t6, e1, e2, f1, f2, f3, f4, f5, f6⟩

theorem arrStep_holds {α : Type} {D : Nat} (read : Tok → Option α) (pp : Table)
    (name : String) (ref t : List α) (dst a : GpuArray α D)
    (h : ArrStep read pp name ref t dst a) : ArrayHolds read D pp name ref a.data := by
  intro vals hv
  obtain ⟨parsed, hp, rfl, ha⟩ := h.2.2 vals hv
  have hl := map_some_length vals read parsed hp
  constructor
  · intro hD
    rw [ha, List.take_append_of_le_length (by omega), List.map_take, List.map_take, hp]
  · intro hD
    rw [ha, List.take_append_eq_append_take, List.take_of_length_le (by omega), hl,
      List.map_append, hp]

/-! ## The claims on parameter ingestion -/

/-- C1: for every required key and every input without a definition of that key,
`InitializeFerroXNamespace` ends in an error and returns no namespace; the error is not
a read outside a buffer. -/
theorem required_key_absent_fails (D : Nat) (pp : Table) (ns : Namespace D) (key : String)
    (hk : key ∈ requiredKeys) (habs : ¬ Defines pp key) :
    ∃ e, InitializeFerroXNamespace D pp ns = .error e ∧ e ≠ .outOfRange := by
  cases h : InitializeFerroXNamespace D pp ns with
  | error e =>
    refine ⟨e, rfl, ?_⟩
    rintro rfl
    exact InitializeFerroXNamespace_ne_outOfRange D pp ns h
  | ok out => exact absurd (ok_defines_required D pp ns out h key hk) habs

/-- Witness of C1: the sample inputs without `epsilon_0` are not ingested. -/
theorem required_key_absent_fails_witness :
    ("epsilon_0" ∈ requiredKeys ∧ ¬ Defines sampleInputsNoEpsilon0 "epsilon_0") ∧
    ∃ e, InitializeFerroXNamespace 3 sampleInputsNoEpsilon0 (sampleNamespace 3) = .error e ∧
      e ≠ .outOfRange :=
  ⟨⟨by decide, by decide⟩,
    required_key_absent_fails 3 sampleInputsNoEpsilon0 (sampleNamespace 3) "epsilon_0"
      (by decide) (by decide)⟩

/-- C2: inputs that define every required key (with values of the right types) are
ingested, whatever the namespace held before; and after any completed ingestion each
optional scalar holds the input's value when its key is defined and its default when it
is not: `plot_int = -1`, `mlmg_verbosity = 1`, `delta = 1e-6`,
`inc_step_sign_change = -1`, `nsteps = 10`. -/
theorem optional_scalars_default (D : Nat) (pp : Table) (ns : Namespace D) :
    ((∀ k ∈ requiredKeys, Defines pp k) → WellTyped pp →
      ∃ out, InitializeFerroXNamespace D pp ns = .ok out) ∧
    ∀ out, InitializeFerroXNamespace D pp ns = .ok out →
      OptionalHolds Tok.asInt pp "plot_int" (-1) out.plot_int ∧
      OptionalHolds Tok.asInt pp "mlmg_verbosity" 1 out.mlmg_verbosity ∧
      OptionalHolds Tok.asReal pp "delta" 1e-6 out.delta ∧
      OptionalHolds Tok.asInt pp "inc_step_sign_change" (-1) out.inc_step_sign_change ∧
      OptionalHolds Tok.asInt pp "nsteps" 10 out.nsteps := by
  refine ⟨InitializeFerroXNamespace_isOk D pp ns, ?_⟩
  intro out h
  obtain ⟨h1, h2, h3, h4, h5⟩ := ok_optional_scalars D pp ns out h
  exact ⟨query_ok_holds _ _ _ _ _ h4, query_ok_holds _ _ _ _ _ h2, query_ok_holds _ _ _ _ _ h5,
    query_ok_holds _ _ _ _ _ h1, query_ok_holds _ _ _ _ _ h3⟩

/-- Witness of C2: the sample inputs (no `plot_int`, `nsteps = 50`) are ingested over a
namespace that held 5 everywhere, and give `plot_int = -1` and `nsteps = 50`. -/
theorem optional_scalars_default_witness :
    ((∀ k ∈ requiredKeys, Defines sampleInputs k) ∧ WellTyped sampleInputs) ∧
    ∃ out, InitializeFerroXNamespace 3 sampleInputs (sampleNamespace 3) = .ok out ∧
      out.plot_int = -1 ∧ out.nsteps = 50 := by
  have hreq : ∀ k ∈ requiredKeys, Defines sampleInputs k := by decide
  have hwt : WellTyped sampleInputs := by decide
  obtain ⟨out, hout⟩ :=
    (optional_scalars_default 3 sampleInputs (sampleNamespace 3)).1 hreq hwt
  obtain ⟨hp, -, -, -, hn⟩ :=
    (optional_scalars_default 3 sampleInputs (sampleNamespace 3)).2 out hout
  refine ⟨⟨hreq, hwt⟩, out, hout, hp.1 (by decide), ?_⟩
  obtain ⟨vals, t, hv, ht, hr⟩ := hn.2 (by decide)
  have hs : ppindex sampleInputs "nsteps" = some [intTok 50] := by decide
  rw [hs] at hv
  cases hv
  cases ht
  simpa [intTok] using hr.symm

/-- C3: after a completed ingestion, every per-axis array whose key the inputs do not
define holds exactly what it held before, whatever other keys are defined; so inputs with
`DE_lo` and without `DE_hi` leave `DE_hi` as it was. -/
theorem absent_array_unchanged (D : Nat) (pp : Table) (ns out : Namespace D)
    (h : InitializeFerroXNamespace D pp ns = .ok out) :
    (¬ Defines pp "P_BC_flag_lo" → out.P_BC_flag_lo = ns.P_BC_flag_lo) ∧
    (¬ Defines pp "P_BC_flag_hi" → out.P_BC_flag_hi = ns.P_BC_flag_hi) ∧
    (¬ Defines pp "DE_lo" → out.DE_lo = ns.DE_lo) ∧
    (¬ Defines pp "DE_hi" → out.DE_hi = ns.DE_hi) ∧
    (¬ Defines pp "FE_lo" → out.FE_lo = ns.FE_lo) ∧
    (¬ Defines pp "FE_hi" → out.FE_hi = ns.FE_hi) ∧
    (¬ Defines pp "SC_lo" → out.SC_lo = ns.SC_lo) ∧
    (¬ Defines pp "SC_hi" → out.SC_hi = ns.SC_hi) := by
  obtain ⟨u1, u2, t1, t2, t3, t4, t5, t6, e1, e2, f1, f2, f3, f4, f5, f6⟩ :=
    ok_arrays D pp ns out h
  exact ⟨fun hd => (e1.2.1 hd).1, fun hd => (e2.2.1 hd).1, fun hd => (f1.2.1 hd).1,
    fun hd => (f2.2.1 hd).1, fun hd => (f3.2.1 hd).1, fun hd => (f4.2.1 hd).1,
    fun hd => (f5.2.1 hd).1, fun hd => (f6.2.1 hd).1⟩

/-- Witness of C3: the sample inputs without `DE_hi` are ingested, `DE_lo` is filled from
the inputs and `DE_hi` still holds the 7s it held before. -/
theorem absent_array_unchanged_witness :
    (Defines sampleInputsNoDEhi "DE_lo" ∧ ¬ Defines sampleInputsNoDEhi "DE_hi") ∧
    ∃ out, InitializeFerroXNamespace 3 sampleInputsNoDEhi (sampleNamespace 3) = .ok out ∧
      out.DE_lo.data = [1, 2, 3] ∧ out.DE_hi = (sampleNamespace 3).DE_hi ∧
      out.DE_hi.data = [7, 7, 7] :=
  ⟨⟨by decide, by decide⟩, _, rfl, rfl,
    (absent_array_unchanged 3 sampleInputsNoDEhi (sampleNamespace 3) _ rfl).2.2.2.1
      (by decide), rfl⟩

/-- C8: after every completed ingestion the semiconductor constants are the values
written in the source, `Nc = 2.8e25`, `Nv = 1.04e25`, `Ec = 0.56`, `Ev = -0.56`,
`q = 1.602e-19`, `kb = 1.38e-23`, `T = 300`; so any two inputs and any two prior
namespaces give the same seven values. -/
theorem semiconductor_constants_fixed (D : Nat) (pp pp' : Table) (ns ns' out out' : Namespace D)
    (h : InitializeFerroXNamespace D pp ns = .ok out)
    (h' : InitializeFerroXNamespace D pp' ns' = .ok out') :
    (out.Nc = 2.8e25 ∧ out.Nv = 1.04e25 ∧ out.Ec = 0.56 ∧ out.Ev = -0.56 ∧
      out.q = 1.602e-19 ∧ out.kb = 1.38e-23 ∧ out.T = 300) ∧
    (out'.Nc = out.Nc ∧ out'.Nv = out.Nv ∧ out'.Ec = out.Ec ∧ out'.Ev = out.Ev ∧
      out'.q = out.q ∧ out'.kb = out.kb ∧ out'.T = out.T) := by
  obtain ⟨a1, a2, a3, a4, a5, a6, a7⟩ := ok_semiconductor D pp ns out h
  obtain ⟨b1, b2, b3, b4, b5, b6, b7⟩ := ok_semiconductor D pp' ns' out' h'
  exact ⟨⟨a1, a2, a3, a4, a5, a6, a7⟩, by rw [a1, b1], by rw [a2, b2], by rw [a3, b3],
    by rw [a4, b4], by rw [a5, b5], by rw [a6, b6], by rw [a7, b7]⟩

/-- Witness of C8: the sample inputs, and the sample inputs with entries named `Nc`, `Nv`,
`Ec`, `Ev`, `q`, `kb` and `T` added, are both ingested and give the same constants. -/
theorem semiconductor_constants_fixed_witness :
    ∃ out out', InitializeFerroXNamespace 3 sampleInputs (sampleNamespace 3) = .ok out ∧
      InitializeFerroXNamespace 3 sampleInputsWithConstants (sampleNamespace 3) = .ok out' ∧
      (out.Nc = 2.8e25 ∧ out.Nv = 1.04e25 ∧ out.Ec = 0.56 ∧ out.Ev = -0.56 ∧
        out.q = 1.602e-19 ∧ out.kb = 1.38e-23 ∧ out.T = 300) ∧
      (out'.Nc = out.Nc ∧ out'.Nv = out.Nv ∧ out'.Ec = out.Ec ∧ out'.Ev = out.Ev ∧
        out'.q = out.q ∧ out'.kb = out.kb ∧ out'.T = out.T) :=
  ⟨_, _, rfl, rfl,
    semiconductor_constants_fixed 3 sampleInputs sampleInputsWithConstants
      (sampleNamespace 3) (sampleNamespace 3) _ _ rfl rfl⟩

/-- C10: ingestion checks no length of a per-axis array. No run reads outside a buffer;
inputs that define every required key with well-typed values are ingested whatever the
lengths of their arrays; and after a completed ingestion an array defined with at least
`D` values holds the first `D` of them (the rest is ignored), while one defined with
`n < D` values holds these `n` followed by what the loop read at the indices `n`, ...,
`D-1` past the end of the values: the earlier content of the shared buffer (zeros for
the first array read through each buffer). -/
theorem array_length_unchecked (D : Nat) (pp : Table) (ns : Namespace D) :
    InitializeFerroXNamespace D pp ns ≠ .error .outOfRange ∧
    ((∀ k ∈ requiredKeys, Defines pp k) → WellTyped pp →
      ∃ out, InitializeFerroXNamespace D pp ns = .ok out) ∧
    ∀ out, InitializeFerroXNamespace D pp ns = .ok out →
      ∃ (u1 : List Int) (t1 t2 t3 t4 t5 : List ℚ),
        ArrayHolds Tok.asInt D pp "P_BC_flag_lo" (List.replicate D 0) out.P_BC_flag_lo.data ∧
        ArrayHolds Tok.asInt D pp "P_BC_flag_hi" u1 out.P_BC_flag_hi.data ∧
        ArrayHolds Tok.asReal D pp "DE_lo" (List.replicate D 0) out.DE_lo.data ∧
        ArrayHolds Tok.asReal D pp "DE_hi" t1 out.DE_hi.data ∧
        ArrayHolds Tok.asReal D pp "FE_lo" t2 out.FE_lo.data ∧
        ArrayHolds Tok.asReal D pp "FE_hi" t3 out.FE_hi.data ∧
        ArrayHolds Tok.asReal D pp "SC_lo" t4 out.SC_lo.data ∧
        ArrayHolds Tok.asReal D pp "SC_hi" t5 out.SC_hi.data := by
  refine ⟨InitializeFerroXNamespace_ne_outOfRange D pp ns,
    InitializeFerroXNamespace_isOk D pp ns, ?_⟩
  intro out h
  obtain ⟨u1, u2, t1, t2, t3, t4, t5, t6, e1, e2, f1, f2, f3, f4, f5, f6⟩ :=
    ok_arrays D pp ns out h
  exact ⟨u1, t1, t2, t3, t4, t5, arrStep_holds _ _ _ _ _ _ _ e1, arrStep_holds _ _ _ _ _ _ _ e2,
    arrStep_holds _ _ _ _ _ _ _ f1, arrStep_holds _ _ _ _ _ _ _ f2,
    arrStep_holds _ _ _ _ _ _ _ f3, arrStep_holds _ _ _ _ _ _ _ f4,
    arrStep_holds _ _ _ _ _ _ _ f5, arrStep_holds _ _ _ _ _ _ _ f6⟩

/-- Witness of C10: the sample inputs give `DE_lo` four values and `DE_hi` one value in
three dimensions; they are ingested, `DE_lo` holds the first three values, and `DE_hi`
holds its one value followed by the second and third value of `DE_lo`, which the buffer
still held. -/
theorem array_length_unchecked_witness :
    ((∀ k ∈ requiredKeys, Defines sampleInputs k) ∧ WellTyped sampleInputs) ∧
    ∃ out, InitializeFerroXNamespace 3 sampleInputs (sampleNamespace 3) = .ok out ∧
      out.DE_lo.data = [1, 2, 3] ∧ out.DE_hi.data = [9, 2, 3] := by
  have hreq : ∀ k ∈ requiredKeys, Defines sampleInputs k := by decide
  have hwt : WellTyped sampleInputs := by decide
  obtain ⟨out, hout⟩ :=
    (array_length_unchecked 3 sampleInputs (sampleNamespace 3)).2.1 hreq hwt
  refine ⟨⟨hreq, hwt⟩, out, hout, ?_, ?_⟩
  · have hc : InitializeFerroXNamespace 3 sampleInputs (sampleNamespace 3) = .ok _ := rfl
    rw [hc] at hout
    cases hout
    rfl
  · have hc : InitializeFerroXNamespace 3 sampleInputs (sampleNamespace 3) = .ok _ := rfl
    rw [hc] at hout
    cases hout
    rfl

/-! ## The claim on warnings -/

theorem recordWarning_eq (self : c_FerroX) (wm : WarnManager) (topic text : String)
    (priority : WarnPriority) (hwm : self.m_p_warn_manager = some wm) :
    self.RecordWarning topic text priority =
      .ok (self.withRecords (wm.records ++ [⟨topic, text, sameLevel priority⟩]),
           if self.m_always_warn_immediately then
             ["!!!!!! WARNING: [" ++ PriorityToString (sameLevel priority) ++ "][" ++ topic
               ++ "] " ++ text]
           else []) := by
  cases priority <;>
    simp [c_FerroX.RecordWarning, hwm, sameLevel, WarnManager.record_warning,
      c_FerroX.withRecords]

/-- C7: on an object whose warn manager exists (every constructed object), for every
topic, text, priority and either value of the flag, `RecordWarning` returns, hands the
warn manager exactly one more record, with the same topic, text and level, leaves the
other members alone, and sends one message through `amrex::Warning` if the flag is set
and none otherwise; three warnings of priorities low, high, medium on topics A, B, A add
three records with that pairing in arrival order. -/
theorem recordWarning_passes_through (self : c_FerroX) (wm : WarnManager)
    (hwm : self.m_p_warn_manager = some wm) :
    (∀ (topic text : String) (priority : WarnPriority),
      ∃ warned, self.RecordWarning topic text priority =
          .ok (self.withRecords (wm.records ++ [⟨topic, text, sameLevel priority⟩]), warned) ∧
        (self.m_always_warn_immediately = true →
          warned = ["!!!!!! WARNING: [" ++ PriorityToString (sameLevel priority) ++ "]["
            ++ topic ++ "] " ++ text]) ∧
        (self.m_always_warn_immediately = false → warned = [])) ∧
    (sameLevel .low = .low ∧ sameLevel .medium = .medium ∧ sameLevel .high = .high) ∧
    (∀ x y z : String,
      ∃ warned, self.recordAll [("A", x, .low), ("B", y, .high), ("A", z, .medium)] =
        .ok (self.withRecords
              (wm.records ++ [⟨"A", x, .low⟩, ⟨"B", y, .high⟩, ⟨"A", z, .medium⟩]),
             warned)) := by
  refine ⟨?_, ⟨rfl, rfl, rfl⟩, ?_⟩
  · intro topic text priority
    refine ⟨_, recordWarning_eq self wm topic text priority hwm, ?_, ?_⟩
    · intro hf
      simp [hf]
    · intro hf
      simp [hf]
  · intro x y z
    simp only [c_FerroX.recordAll, bind, Except.bind, pure, Except.pure]
    rw [recordWarning_eq self wm "A" x .low hwm]
    simp only
    rw [recordWarning_eq _ ⟨wm.records ++ [⟨"A", x, sameLevel .low⟩]⟩ "B" y .high rfl]
    simp only
    rw [recordWarning_eq _ ⟨wm.records ++ [⟨"A", x, sameLevel .low⟩] ++
      [⟨"B", y, sameLevel .high⟩]⟩ "A" z .medium rfl]
    simp [sameLevel, c_FerroX.withRecords]

/-- Witness of C7: on the sample object (empty warn manager, flag set) a warning of
priority medium is recorded and echoed, and the three warnings of the scenario are
recorded in order. -/
theorem recordWarning_passes_through_witness :
    sampleObject.m_p_warn_manager = some ⟨[]⟩ ∧
    sampleObject.RecordWarning "A" "field out of range" .medium =
      .ok (sampleObject.withRecords [⟨"A", "field out of range", .medium⟩],
           ["!!!!!! WARNING: [medium][A] field out of range"]) ∧
    ∃ warned, sampleObject.recordAll [("A", "x", .low), ("B", "y", .high), ("A", "z", .medium)] =
      .ok (sampleObject.withRecords
            [⟨"A", "x", .low⟩, ⟨"B", "y", .high⟩, ⟨"A", "z", .medium⟩], warned) := by
  have h := recordWarning_passes_through sampleObject ⟨[]⟩ rfl
  refine ⟨rfl, ?_, ?_⟩
  · obtain ⟨warned, hr, ht, -⟩ := h.1 "A" "field out of range" .medium
    rw [hr, ht rfl]
    rfl
  · obtain ⟨warned, hr⟩ := h.2.2 "x" "y" "z"
    exact ⟨warned, by simpa using hr⟩

/-! ## The singleton -/

/-- The object that `ReadData` leaves: time-step index `t`, step count `s`, a constructed
and not yet initialised geometry, constructed boundary conditions. -/
theorem readData_eq_ok (td : Bool) (pp : Table) (id : Nat) (self obj : c_FerroX)
    (events : List Event) :
    c_FerroX.ReadData td pp id self = .ok (obj, events) ↔
      ∃ t s, (if td then queryWithParser pp "timestep" 0 = .ok t ∧
                queryWithParser pp "steps" 1 = .ok s
              else t = 0 ∧ s = 1) ∧
        obj = { self with m_timestep := t, m_total_steps := s,
                          m_pGeometryProperties := some ⟨false⟩,
                          m_pBoundaryConditions := some ⟨()⟩ } ∧
        events = [Event.readData id, Event.geometryConstructed id,
          Event.boundaryConstructed id] := by
  cases td with
  | false =>
    simp only [c_FerroX.ReadData, bind_eq_ok, pure, Except.pure, Except.ok.injEq,
      Bool.false_eq_true, ↓reduceIte, exists_eq_left', Prod.mk.injEq]
    constructor
    · rintro ⟨rfl, rfl⟩
      exact ⟨0, 1, ⟨rfl, rfl⟩, rfl, rfl⟩
    · rintro ⟨t, s, ⟨rfl, rfl⟩, rfl, rfl⟩
      exact ⟨rfl, rfl⟩
  | true =>
    simp only [c_FerroX.ReadData, bind_eq_ok, pure, Except.pure, Except.ok.injEq,
      ↓reduceIte, Prod.mk.injEq]
    constructor
    · rintro ⟨t, ht, s, hs, _, rfl, rfl, rfl⟩
      exact ⟨t, s, ⟨ht, hs⟩, rfl, rfl⟩
    · rintro ⟨t, s, ⟨ht, hs⟩, rfl, rfl⟩
      exact ⟨t, ht, s, hs, _, rfl, rfl, rfl⟩


/-- What `GetInstance` does when no instance exists: one object is constructed on fresh
storage, `ReadData` runs on it once, and `m_instance` points to it; nothing else changes. -/
theorem getInstance_none {D : Nat} (env : Env) (w w1 : World D) (id : Nat)
    (hn : w.m_instance = none) :
    GetInstance env w = .ok (id, w1) ↔
      ∃ t s, (if env.TIME_DEPENDENT then queryWithParser w.pp "timestep" 0 = .ok t ∧
                queryWithParser w.pp "steps" 1 = .ok s
              else t = 0 ∧ s = 1) ∧
        id = w.allocated ∧
        w1 = { w with
          m_instance := some id
          allocated := id + 1
          heap := fun j => if j = id then
            some { env.storage id with
                    m_timestep := t, m_total_steps := s, m_p_warn_manager := some ⟨[]⟩,
                    m_pGeometryProperties := some ⟨false⟩,
                    m_pBoundaryConditions := some ⟨()⟩ }
            else w.heap j
          log := w.log ++ [Event.constructed id, Event.readData id,
            Event.geometryConstructed id, Event.boundaryConstructed id] } := by
  simp only [GetInstance, hn, c_FerroX.construct, bind_eq_ok, pure, Except.pure,
    Except.ok.injEq, Prod.exists, Prod.mk.injEq, readData_eq_ok]
  constructor
  · rintro ⟨_, _, ⟨obj, events, ⟨t, s, hts, rfl, rfl⟩, rfl, rfl⟩, rfl, rfl⟩
    exact ⟨t, s, hts, rfl, by simp⟩
  · rintro ⟨t, s, hts, rfl, rfl⟩
    exact ⟨_, _, ⟨_, _, ⟨t, s, hts, rfl, rfl⟩, rfl, rfl⟩, rfl, by simp⟩

/-- What `GetInstance` does when an instance exists: it returns it and changes nothing. -/
theorem getInstance_some {D : Nat} (env : Env) (w : World D) (id : Nat)
    (hs : w.m_instance = some id) : GetInstance env w = .ok (id, w) := by
  simp [GetInstance, hs]

/-- Without `TIME_DEPENDENT`, `GetInstance` reads nothing from the inputs and returns. -/
theorem getInstance_isOk {D : Nat} (env : Env) (w : World D)
    (htd : env.TIME_DEPENDENT = false) : ∃ id w1, GetInstance env w = .ok (id, w1) := by
  cases hm : w.m_instance with
  | some id => exact ⟨id, w, getInstance_some env w id hm⟩
  | none =>
    exact ⟨_, _, (getInstance_none env w _ _ hm).mpr ⟨0, 1, by simp [htd], rfl, rfl⟩⟩

theorem query_ok_holds_parsed (pp : Table) (name : String) (dflt v : Int)
    (h : queryWithParser pp name dflt = .ok v) : OptionalHolds Tok.asParsed pp name dflt v :=
  query_ok_holds Tok.asParsed pp name dflt v h

/-! ## The claims on the singleton -/

/-- C4, amended: two consecutive calls of `GetInstance()` return the same instance, the
second changing nothing; across the two calls the instance is constructed, and
`ReadData` run, exactly once when no instance existed and not at all when one did.
`InitializeFerroXNamespace` is not run by either call and the global namespace is left
as it was. Without `TIME_DEPENDENT` the first call always returns. -/
theorem getInstance_twice {D : Nat} (env : Env) (w : World D) :
    (env.TIME_DEPENDENT = false → ∃ id w1, GetInstance env w = .ok (id, w1)) ∧
    ∀ id w1, GetInstance env w = .ok (id, w1) →
      GetInstance env w1 = .ok (id, w1) ∧
      (w.m_instance = none →
        w1.log = w.log ++ [Event.constructed id, Event.readData id,
          Event.geometryConstructed id, Event.boundaryConstructed id]) ∧
      (w.m_instance ≠ none → w1 = w) ∧
      w1.ns = w.ns ∧
      w1.log.count Event.namespaceIngested = w.log.count Event.namespaceIngested := by
  refine ⟨getInstance_isOk env w, ?_⟩
  intro id w1 h
  cases hm : w.m_instance with
  | some i =>
    rw [getInstance_some env w i hm] at h
    simp only [Except.ok.injEq, Prod.mk.injEq] at h
    obtain ⟨rfl, rfl⟩ := h
    exact ⟨getInstance_some env w _ hm, by simp, fun _ => rfl, rfl, rfl⟩
  | none =>
    obtain ⟨t, s, -, rfl, rfl⟩ := (getInstance_none env w w1 id hm).mp h
    refine ⟨getInstance_some env _ _ rfl, fun _ => rfl, by simp, rfl, ?_⟩
    simp [List.count_append]

/-- Witness of C4: from the initial state the first call constructs instance 0 and runs
`ReadData` once; the second call returns instance 0 again and adds no event. -/
theorem getInstance_twice_witness :
    sampleEnv.TIME_DEPENDENT = false ∧
    ∃ w1, GetInstance sampleEnv (World.initial sampleInputs (sampleNamespace 3)) = .ok (0, w1) ∧
      GetInstance sampleEnv w1 = .ok (0, w1) ∧
      w1.log = [Event.constructed 0, Event.readData 0, Event.geometryConstructed 0,
        Event.boundaryConstructed 0] := by
  have h := getInstance_twice sampleEnv (World.initial sampleInputs (sampleNamespace 3))
  have h0 : GetInstance sampleEnv (World.initial sampleInputs (sampleNamespace 3)) =
      .ok (0, _) := rfl
  obtain ⟨h1, -, -, -, -⟩ := h.2 0 _ h0
  exact ⟨rfl, _, h0, h1, rfl⟩

/-- Counterexample to C4 as stated: with the sample inputs, two calls of `GetInstance()`
from the initial state return instance 0 twice, and no run of
`InitializeFerroXNamespace` has taken place: the log has no such event and the namespace
still holds `nsteps = 5`, where an ingestion of the same inputs gives `nsteps = 50`. -/
theorem no_ingestion_by_getInstance :
    ∃ w1 w2 out,
      GetInstance sampleEnv (World.initial sampleInputs (sampleNamespace 3)) = .ok (0, w1) ∧
      GetInstance sampleEnv w1 = .ok (0, w2) ∧
      w2.log.count Event.namespaceIngested = 0 ∧
      w2.ns = sampleNamespace 3 ∧ w2.ns.nsteps = 5 ∧
      InitializeFerroXNamespace 3 sampleInputs (sampleNamespace 3) = .ok out ∧
      out.nsteps = 50 :=
  ⟨_, _, _, rfl, rfl, rfl, rfl, rfl, rfl, rfl⟩

/-- C5, amended: `ResetInstance()` destroys the current instance and leaves `m_instance`
empty; a following `GetInstance()` constructs a new object, distinct from the destroyed
one, and runs `ReadData` on it, which sets its time-step index and step count afresh (0
and 1, or what the inputs give for `timestep` and `steps` under `TIME_DEPENDENT`)
whatever the old object or the fresh storage held. `InitializeFerroXNamespace` is not
run and the global namespace is left as it was. -/
theorem reset_then_getInstance {D : Nat} (env : Env) (w : World D) (old : Nat)
    (hlive : w.m_instance = some old) (hwf : old < w.allocated) :
    (ResetInstance w).m_instance = none ∧ (ResetInstance w).heap old = none ∧
    (env.TIME_DEPENDENT = false → ∃ id w2, GetInstance env (ResetInstance w) = .ok (id, w2)) ∧
    ∀ id w2, GetInstance env (ResetInstance w) = .ok (id, w2) →
      id ≠ old ∧ w2.m_instance = some id ∧ w2.heap old = none ∧
      w2.log = w.log ++ [Event.destroyed old, Event.constructed id, Event.readData id,
        Event.geometryConstructed id, Event.boundaryConstructed id] ∧
      (∃ obj, w2.heap id = some obj ∧
        (env.TIME_DEPENDENT = false → obj.m_timestep = 0 ∧ obj.m_total_steps = 1) ∧
        (env.TIME_DEPENDENT = true →
          OptionalHolds Tok.asParsed w.pp "timestep" 0 obj.m_timestep ∧
          OptionalHolds Tok.asParsed w.pp "steps" 1 obj.m_total_steps)) ∧
      w2.ns = w.ns ∧
      w2.log.count Event.namespaceIngested = w.log.count Event.namespaceIngested := by
  have hr : ResetInstance w =
      { w with heap := fun j => if j = old then none else w.heap j,
               log := w.log ++ [Event.destroyed old], m_instance := none } := by
    simp [ResetInstance, hlive]
  refine ⟨by rw [hr], by rw [hr]; simp, getInstance_isOk env _, ?_⟩
  intro id w2 h
  obtain ⟨t, s, hts, hid, rfl⟩ := (getInstance_none env _ w2 id (by rw [hr])).mp h
  have hid' : id = w.allocated := by rw [hid, hr]
  have hne : id ≠ old := by omega
  refine ⟨hne, rfl, ?_, ?_,
    ⟨{ env.storage id with
        m_timestep := t, m_total_steps := s, m_p_warn_manager := some ⟨[]⟩,
        m_pGeometryProperties := some ⟨false⟩, m_pBoundaryConditions := some ⟨()⟩ },
      by simp, ?_, ?_⟩, by rw [hr], ?_⟩
  · simp [hr, Ne.symm hne]
  · simp [hr]
  · intro htd
    simp only [htd, Bool.false_eq_true, ↓reduceIte] at hts
    exact hts
  · intro htd
    simp only [htd, ↓reduceIte, hr] at hts
    exact ⟨query_ok_holds_parsed _ _ _ _ hts.1, query_ok_holds_parsed _ _ _ _ hts.2⟩
  · simp [hr, List.count_append]

/-- Witness of C5: in the state after a first `GetInstance()` instance 0 is alive;
`ResetInstance()` and `GetInstance()` then give instance 1, whose time-step index and
step count are 0 and 1 although the fresh storage held 77 and 88. -/
theorem reset_then_getInstance_witness :
    (sampleLive.m_instance = some 0 ∧ 0 < sampleLive.allocated) ∧
    ∃ w2 obj, GetInstance sampleEnv (ResetInstance sampleLive) = .ok (1, w2) ∧
      w2.heap 1 = some obj ∧ obj.m_timestep = 0 ∧ obj.m_total_steps = 1 ∧
      (sampleEnv.storage 1).m_timestep = 77 ∧ w2.heap 0 = none :=
  have h := (reset_then_getInstance sampleEnv sampleLive 0 rfl (by decide)).2.2.2 1 _ rfl
  ⟨⟨rfl, by decide⟩, _, _, rfl, rfl, rfl, rfl, rfl, h.2.2.1⟩

/-- Counterexample to C5 as stated: with the sample inputs, `ResetInstance()` followed by
`GetInstance()` gives the new instance 1, and no run of `InitializeFerroXNamespace` has
taken place: the log has no such event and the namespace still holds `nsteps = 5`,
where an ingestion of the same inputs gives `nsteps = 50`. -/
theorem no_ingestion_by_reset :
    ∃ w2 out, sampleLive.m_instance = some 0 ∧
      GetInstance sampleEnv (ResetInstance sampleLive) = .ok (1, w2) ∧
      w2.log.count Event.namespaceIngested = 0 ∧
      w2.ns = sampleNamespace 3 ∧ w2.ns.nsteps = 5 ∧
      InitializeFerroXNamespace 3 sampleInputs (sampleNamespace 3) = .ok out ∧
      out.nsteps = 50 :=
  ⟨_, _, rfl, rfl, rfl, rfl, rfl, rfl, rfl⟩

/-! ## The order of construction and initialisation -/

theorem append_singleton_split {α : Type} (l before after : List α) (x y : α)
    (h : l ++ [y] = before ++ x :: after) :
    (before = l ∧ x = y ∧ after = []) ∨ ∃ rest, l = before ++ x :: rest := by
  rcases List.eq_nil_or_concat after with rfl | ⟨rest, z, rfl⟩
  · left
    have h2 : l ++ [y] = before ++ [x] := h
    have := List.append_inj' h2 rfl
    simp only [List.cons.injEq, and_true] at this
    exact ⟨this.1.symm, this.2.symm, rfl⟩
  · right
    refine ⟨rest, ?_⟩
    have h2 : l ++ [y] = (before ++ x :: rest) ++ [z] := by
      rw [h]
      simp
    exact (List.append_inj' h2 rfl).1

theorem geometryInit_append_other (log : List Event) (e : Event)
    (h : GeometryInitAfterReadData log) (he : ∀ id, e ≠ Event.geometryInitialised id) :
    GeometryInitAfterReadData (log ++ [e]) := by
  intro before after id hsplit
  rcases append_singleton_split log before after _ e hsplit with ⟨-, hx, -⟩ | ⟨rest, hr⟩
  · exact absurd hx.symm (he id)
  · exact h before rest id hr

theorem geometryInit_append_init (log : List Event) (id : Nat)
    (h : GeometryInitAfterReadData log) (hr : Event.readData id ∈ log)
    (hg : Event.geometryConstructed id ∈ log) :
    GeometryInitAfterReadData (log ++ [Event.geometryInitialised id]) := by
  intro before after i hsplit
  rcases append_singleton_split log before after _ _ hsplit with ⟨hb, hx, -⟩ | ⟨rest, hrest⟩
  · cases hx
    rw [hb]
    exact ⟨hr, hg⟩
  · exact h before rest i hrest

theorem inv_initial {D : Nat} (pp : Table) (ns : Namespace D) : (World.initial pp ns).Inv := by
  refine ⟨?_, ?_, ?_⟩
  · intro id h
    cases h
  · intro id obj h
    cases h
  · intro before after id h
    simp [World.initial] at h

theorem inv_getInstance {D : Nat} (env : Env) (w w1 : World D) (id : Nat) (hinv : w.Inv)
    (h : GetInstance env w = .ok (id, w1)) :
    w1.Inv ∧ w1.m_instance = some id ∧ w1.ns = w.ns ∧
      (Event.namespaceIngested ∈ w1.log → Event.namespaceIngested ∈ w.log) := by
  cases hm : w.m_instance with
  | some i =>
    rw [getInstance_some env w i hm] at h
    simp only [Except.ok.injEq, Prod.mk.injEq] at h
    obtain ⟨rfl, rfl⟩ := h
    exact ⟨hinv, hm, rfl, fun hx => hx⟩
  | none =>
    obtain ⟨t, s, -, rfl, rfl⟩ := (getInstance_none env w w1 id hm).mp h
    obtain ⟨-, hheap, hlog⟩ := hinv
    refine ⟨⟨?_, ?_, ?_⟩, rfl, rfl, ?_⟩
    · intro id hid
      simp only [Option.some.injEq] at hid
      subst hid
      simp
    · intro j obj hj
      by_cases hji : j = w.allocated
      · subst hji
        simp only [↓reduceIte, Option.some.injEq] at hj
        subst hj
        exact ⟨by simp, ⟨_, rfl⟩, by simp, by simp⟩
      · simp only [hji, ↓reduceIte] at hj
        obtain ⟨h1, h2, h3, h4⟩ := hheap j obj hj
        exact ⟨by simp; omega, h2, by simp [h3], by simp [h4]⟩
    · have e : w.log ++ [Event.constructed w.allocated, Event.readData w.allocated,
          Event.geometryConstructed w.allocated, Event.boundaryConstructed w.allocated] =
          w.log ++ [Event.constructed w.allocated] ++ [Event.readData w.allocated] ++
            [Event.geometryConstructed w.allocated] ++
            [Event.boundaryConstructed w.allocated] := by simp
      simp only [e]
      exact geometryInit_append_other _ _ (geometryInit_append_other _ _
        (geometryInit_append_other _ _ (geometryInit_append_other _ _ hlog
          (by simp)) (by simp)) (by simp)) (by simp)
    · simp

theorem inv_resetInstance {D : Nat} (w : World D) (hinv : w.Inv) :
    (ResetInstance w).Inv ∧ (ResetInstance w).ns = w.ns ∧
      (Event.namespaceIngested ∈ (ResetInstance w).log → Event.namespaceIngested ∈ w.log) := by
  cases hm : w.m_instance with
  | none =>
    have hr : ResetInstance w = w := by simp [ResetInstance, hm]
    rw [hr]
    exact ⟨hinv, rfl, fun hx => hx⟩
  | some old =>
    have hr : ResetInstance w =
        { w with heap := fun j => if j = old then none else w.heap j,
                 log := w.log ++ [Event.destroyed old], m_instance := none } := by
      simp [ResetInstance, hm]
    rw [hr]
    obtain ⟨-, hheap, hlog⟩ := hinv
    refine ⟨⟨?_, ?_, ?_⟩, rfl, by simp⟩
    · intro id hid
      cases hid
    · intro j obj hj
      by_cases hji : j = old
      · simp [hji] at hj
      · simp only [hji, ↓reduceIte] at hj
        obtain ⟨h1, h2, h3, h4⟩ := hheap j obj hj
        exact ⟨h1, h2, by simp [h3], by simp [h4]⟩
    · exact geometryInit_append_other _ _ hlog (by simp)

theorem initData_eq_ok {D : Nat} (this : Nat) (w w1 : World D) :
    c_FerroX.InitData this w = .ok w1 ↔
      ∃ self g, w.heap this = some self ∧ self.m_pGeometryProperties = some g ∧
        w1 = { w with
          heap := fun j => if j = this then
            some { self with m_pGeometryProperties := some g.InitData } else w.heap j
          log := w.log ++ [Event.geometryInitialised this] } := by
  unfold c_FerroX.InitData
  cases hh : w.heap this with
  | none => simp
  | some self =>
    cases hg : self.m_pGeometryProperties with
    | none => simp [hg]
    | some g => simp [hg, eq_comm]

theorem inv_initData {D : Nat} (this : Nat) (w w1 : World D) (hinv : w.Inv)
    (h : c_FerroX.InitData this w = .ok w1) :
    w1.Inv ∧ w1.m_instance = w.m_instance ∧ w1.ns = w.ns ∧
      (Event.namespaceIngested ∈ w1.log → Event.namespaceIngested ∈ w.log) := by
  obtain ⟨self, g, hself, hg, rfl⟩ := (initData_eq_ok this w w1).mp h
  obtain ⟨hinst, hheap, hlog⟩ := hinv
  obtain ⟨t1, -, t3, t4⟩ := hheap this self hself
  refine ⟨⟨?_, ?_, ?_⟩, rfl, rfl, by simp⟩
  · intro id hid
    obtain ⟨obj, hobj⟩ := hinst id hid
    by_cases hji : id = this
    · simp [hji]
    · exact ⟨obj, by simp [hji, hobj]⟩
  · intro j obj hj
    by_cases hji : j = this
    · subst hji
      simp only [↓reduceIte, Option.some.injEq] at hj
      subst hj
      exact ⟨t1, ⟨_, rfl⟩, by simp [t3], by simp [t4]⟩
    · simp only [hji, ↓reduceIte] at hj
      obtain ⟨h1, h2, h3, h4⟩ := hheap j obj hj
      exact ⟨h1, h2, by simp [h3], by simp [h4]⟩
  · exact geometryInit_append_init _ _ hlog t3 t4

/-- A call of `InitData()` on the current instance finds a constructed geometry and returns. -/
theorem initData_isOk {D : Nat} (w : World D) (id : Nat) (hinv : w.Inv)
    (hm : w.m_instance = some id) : ∃ w1, c_FerroX.InitData id w = .ok w1 := by
  obtain ⟨obj, hobj⟩ := hinv.1 id hm
  obtain ⟨-, ⟨g, hg⟩, -, -⟩ := hinv.2.1 id obj hobj
  exact ⟨_, (initData_eq_ok id w _).mpr ⟨obj, g, hobj, hg, rfl⟩⟩

theorem step_inv {D : Nat} (env : Env) (c c1 : Client D) (call : Call) (hinv : c.world.Inv)
    (h : Call.step env c call = .ok c1) :
    c1.world.Inv ∧ c1.world.ns = c.world.ns ∧
      (Event.namespaceIngested ∈ c1.world.log → Event.namespaceIngested ∈ c.world.log) := by
  cases call with
  | getInstance =>
    simp only [Call.step, bind_eq_ok, pure, Except.pure, Except.ok.injEq, Prod.exists] at h
    obtain ⟨id, w, hg, rfl⟩ := h
    obtain ⟨h1, -, h3, h4⟩ := inv_getInstance env c.world w id hinv hg
    exact ⟨h1, h3, h4⟩
  | initData =>
    cases hh : c.held with
    | none => simp [Call.step, hh] at h
    | some id =>
      simp only [Call.step, hh, bind_eq_ok, pure, Except.pure, Except.ok.injEq] at h
      obtain ⟨w, hw, rfl⟩ := h
      obtain ⟨h1, -, h3, h4⟩ := inv_initData id c.world w hinv hw
      exact ⟨h1, h3, h4⟩
  | resetInstance =>
    simp only [Call.step, Except.ok.injEq] at h
    subst h
    exact inv_resetInstance c.world hinv

theorem run_inv {D : Nat} (env : Env) (calls : List Call) :
    ∀ (c c1 : Client D), c.world.Inv → Call.run env calls c = .ok c1 →
      c1.world.Inv ∧ c1.world.ns = c.world.ns ∧
        (Event.namespaceIngested ∈ c1.world.log → Event.namespaceIngested ∈ c.world.log) := by
  induction calls with
  | nil =>
    intro c c1 hinv h
    simp only [Call.run, Except.ok.injEq] at h
    subst h
    exact ⟨hinv, rfl, fun hx => hx⟩
  | cons call rest ih =>
    intro c c1 hinv h
    simp only [Call.run, bind_eq_ok] at h
    obtain ⟨c', hstep, hrest⟩ := h
    obtain ⟨h1, h2, h3⟩ := step_inv env c c' call hinv hstep
    obtain ⟨k1, k2, k3⟩ := ih c' c1 h1 hrest
    exact ⟨k1, k2.trans h2, fun hx => h3 (k3 hx)⟩

/-- C6, amended: constructing the application runs `ReadData`, which constructs the
geometry and the boundary-condition objects inside the constructor (not on `InitData`)
and neither runs `InitializeFerroXNamespace` nor writes the global namespace;
`InitData` constructs nothing and only initialises the geometry. In every sequence of
`GetInstance` / `InitData` / `ResetInstance` calls that runs through, every geometry
initialisation comes after the `ReadData` of the same instance and after the
construction of its geometry, `InitData` on the current instance finds a constructed
geometry, and the namespace is never ingested by these calls. -/
theorem geometry_init_after_readData {D : Nat} (env : Env) (pp : Table) (ns : Namespace D) :
    (∀ (w w1 : World D) (id : Nat), w.m_instance = none → GetInstance env w = .ok (id, w1) →
      (∃ obj, w1.heap id = some obj ∧ obj.m_pGeometryProperties = some ⟨false⟩ ∧
        obj.m_pBoundaryConditions = some ⟨()⟩) ∧
      w1.log = w.log ++ [Event.constructed id, Event.readData id,
        Event.geometryConstructed id, Event.boundaryConstructed id] ∧
      w1.ns = w.ns) ∧
    (∀ (w w1 : World D) (this : Nat), c_FerroX.InitData this w = .ok w1 →
      w1.log = w.log ++ [Event.geometryInitialised this] ∧ w1.ns = w.ns) ∧
    (∀ (calls : List Call) (c : Client D),
      Call.run env calls ⟨none, World.initial pp ns⟩ = .ok c →
        GeometryInitAfterReadData c.world.log ∧
        (∀ id, c.world.m_instance = some id → ∃ w1, c_FerroX.InitData id c.world = .ok w1) ∧
        Event.namespaceIngested ∉ c.world.log ∧ c.world.ns = ns) := by
  refine ⟨?_, ?_, ?_⟩
  · intro w w1 id hm h
    obtain ⟨t, s, -, rfl, rfl⟩ := (getInstance_none env w w1 id hm).mp h
    exact ⟨by simp, rfl, rfl⟩
  · intro w w1 this h
    obtain ⟨self, g, -, -, rfl⟩ := (initData_eq_ok this w w1).mp h
    exact ⟨rfl, rfl⟩
  · intro calls c h
    obtain ⟨h1, h2, h3⟩ := run_inv env calls ⟨none, World.initial pp ns⟩ c (inv_initial pp ns) h
    refine ⟨h1.2.2, fun id hm => initData_isOk c.world id h1 hm, ?_, h2⟩
    intro hx
    have := h3 hx
    simp [World.initial] at this

/-- Witness of C6: a run of `GetInstance`, `InitData`, `ResetInstance`, `GetInstance`,
`InitData` with the sample inputs goes through, and its log has each geometry
initialisation after the `ReadData` of the same instance. -/
theorem geometry_init_after_readData_witness :
    ∃ c, Call.run sampleEnv
        [.getInstance, .initData, .resetInstance, .getInstance, .initData]
        ⟨none, World.initial sampleInputs (sampleNamespace 3)⟩ = .ok c ∧
      c.world.log = [Event.constructed 0, Event.readData 0, Event.geometryConstructed 0,
        Event.boundaryConstructed 0, Event.geometryInitialised 0, Event.destroyed 0,
        Event.constructed 1, Event.readData 1, Event.geometryConstructed 1,
        Event.boundaryConstructed 1, Event.geometryInitialised 1] ∧
      GeometryInitAfterReadData c.world.log ∧ c.world.ns = sampleNamespace 3 :=
  have h := (geometry_init_after_readData sampleEnv sampleInputs (sampleNamespace 3)).2.2
    [.getInstance, .initData, .resetInstance, .getInstance, .initData] _ rfl
  ⟨_, rfl, rfl, h.1, h.2.2.2⟩

/-- Counterexample to C6 as stated: with the sample inputs, after `GetInstance()` alone
the geometry and the boundary conditions of instance 0 are constructed although
`InitData()` was never called; and after `GetInstance()` and `InitData()` the geometry
is initialised although no run of `InitializeFerroXNamespace` has taken place: the
namespace still holds `nsteps = 5`, where an ingestion of the same inputs gives
`nsteps = 50`. -/
theorem geometry_built_by_constructor :
    ∃ c obj c2 out,
      Call.run sampleEnv [.getInstance]
        ⟨none, World.initial sampleInputs (sampleNamespace 3)⟩ = .ok c ∧
      c.world.heap 0 = some obj ∧ obj.m_pGeometryProperties = some ⟨false⟩ ∧
      obj.m_pBoundaryConditions = some ⟨()⟩ ∧
      c.world.log = [Event.constructed 0, Event.readData 0, Event.geometryConstructed 0,
        Event.boundaryConstructed 0] ∧
      Call.run sampleEnv [.getInstance, .initData]
        ⟨none, World.initial sampleInputs (sampleNamespace 3)⟩ = .ok c2 ∧
      c2.world.log = [Event.constructed 0, Event.readData 0, Event.geometryConstructed 0,
        Event.boundaryConstructed 0, Event.geometryInitialised 0] ∧
      c2.world.ns = sampleNamespace 3 ∧ c2.world.ns.nsteps = 5 ∧
      InitializeFerroXNamespace 3 sampleInputs (sampleNamespace 3) = .ok out ∧
      out.nsteps = 50 :=
  ⟨_, _, _, _, rfl, rfl, rfl, rfl, rfl, rfl, rfl, rfl, rfl, rfl, rfl⟩

end FerroX
